import Mathlib

/-!
# A verification development for the asynchronous calculator server (`src/main.cpp`)

The file embeds the request handler `Request` of `src/main.cpp` in Lean:

* `Dbl` is the value set of a C++ `double` (IEEE 754 binary64): finite values
  `±m·2^e`, the two infinities and not-a-number.  Arithmetic is the exact rational
  operation followed by round-to-nearest, ties-to-even, with 53 significant bits,
  gradual underflow at exponent `-1074` and overflow to infinity.
* `int` is a 32-bit two's complement integer; arithmetic that leaves the range
  wraps around (`wrap32`).
* `std::string` and the stream buffers are lists of bytes, written `List Char`.
* The library functions that `main.cpp` calls but does not define (`atof`, `cos`,
  `sin`, `tan`, `sqrt`, `pow`, `boost::lexical_cast`) are fields of `Externals`.
* The two loops of `calculateAnswer` run on fuel: `none` means the fuel ran out.
* The read of the local `n3` that no statement has assigned has no value fixed by the
  source: `calculateAnswer` reports it (`EvalResult.uninit`) and `afterRead` takes the
  value read as an input of each call.
* `HttpServer` holds the `Request` objects that `start_accept` has constructed and the
  accepts that are pending; `io_service.run()`, which one thread runs, delivers the
  completions one at a time (`acceptCompletes`, `dispatch`).
-/

set_option maxRecDepth 100000

/-! ## The type `double` -/

/-- Number of binary digits of `n`, by repeated halving (`fuel` bounds the halvings). -/
def bitLenAux : Nat → Nat → Nat
  | 0, _ => 0
  | fuel + 1, n => if n = 0 then 0 else bitLenAux fuel (n / 2) + 1

/-- Number of binary digits of `n` (`0` for `0`). -/
def bitLen (n : Nat) : Nat := bitLenAux n n

/-- The values of a C++ `double`: `fin neg m e` is `(-1)^neg · m · 2^e`. -/
inductive Dbl where
  | fin (neg : Bool) (m : Nat) (e : Int)
  | inf (neg : Bool)
  | nan
  deriving DecidableEq, Repr

namespace Dbl

/-- The fraction `N/D · 2^x` as a fraction of naturals. -/
def scale (N D : Nat) (x : Int) : Nat × Nat :=
  if 0 ≤ x then (N * 2 ^ x.toNat, D) else (N, D * 2 ^ (-x).toNat)

/-- The integer nearest to `N/D`, ties going to the even one. -/
def roundHalfEven (N D : Nat) : Nat :=
  let q := N / D
  let r := N % D
  if 2 * r < D then q
  else if 2 * r = D then (if q % 2 = 0 then q else q + 1)
  else q + 1

/-- Rounding of the exact value `(-1)^neg · N/D · 2^e` to binary64 (round to nearest,
ties to even): 53 significant bits, least exponent `-1074`, largest exponent `971`. -/
def round (neg : Bool) (N D : Nat) (e : Int) : Dbl :=
  if N = 0 then fin neg 0 0
  else
    let l : Int := (bitLen N : Int) - (bitLen D : Int)
    let t0 : Int := e + l - 53
    let s0 := scale N D (e - t0)
    let t1 : Int := if s0.1 / s0.2 < 2 ^ 53 then t0 else t0 + 1
    let t : Int := max t1 (-1074)
    let s1 := scale N D (e - t)
    let m := roundHalfEven s1.1 s1.2
    if m = 0 then fin neg 0 0
    else if m = 2 ^ 53 then (if 971 < t + 1 then inf neg else fin neg (2 ^ 52) (t + 1))
    else if 971 < t then inf neg
    else fin neg m t

/-- Conversion of an integer to `double`. -/
def ofInt (i : Int) : Dbl := round (decide (i < 0)) i.natAbs 1 0

/-- Conversion of an unsigned integer (`size_t`) to `double`. -/
def ofNat (n : Nat) : Dbl := round false n 1 0

/-- The signed significand of `(-1)^neg · m · 2^e` at the smaller exponent `e0`. -/
def key (neg : Bool) (m : Nat) (e e0 : Int) : Int :=
  (if neg then -1 else 1) * ((m : Int) * 2 ^ (e - e0).toNat)

/-- The comparison `a <= b` of two doubles (false when either is not-a-number). -/
def le : Dbl → Dbl → Bool
  | fin s1 m1 e1, fin s2 m2 e2 =>
    decide (key s1 m1 e1 (min e1 e2) ≤ key s2 m2 e2 (min e1 e2))
  | nan, _ => false
  | _, nan => false
  | inf true, _ => true
  | _, inf false => true
  | inf false, _ => false
  | _, inf true => false

/-- The comparison `a < b` of two doubles (false when either is not-a-number). -/
def lt : Dbl → Dbl → Bool
  | fin s1 m1 e1, fin s2 m2 e2 =>
    decide (key s1 m1 e1 (min e1 e2) < key s2 m2 e2 (min e1 e2))
  | nan, _ => false
  | _, nan => false
  | inf true, inf true => false
  | inf true, _ => true
  | inf false, _ => false
  | _, inf false => true
  | _, inf true => false

/-- The product `a * b` of two doubles. -/
def mul : Dbl → Dbl → Dbl
  | fin s1 m1 e1, fin s2 m2 e2 => round (xor s1 s2) (m1 * m2) 1 (e1 + e2)
  | fin s1 m1 _, inf s2 => if m1 = 0 then nan else inf (xor s1 s2)
  | inf s1, fin s2 m2 _ => if m2 = 0 then nan else inf (xor s1 s2)
  | inf s1, inf s2 => inf (xor s1 s2)
  | nan, _ => nan
  | _, nan => nan

/-- The sum `a + b` of two doubles. -/
def add : Dbl → Dbl → Dbl
  | fin s1 m1 e1, fin s2 m2 e2 =>
    let e0 := min e1 e2
    let s := key s1 m1 e1 e0 + key s2 m2 e2 e0
    if s = 0 then fin (s1 && s2) 0 0 else round (decide (s < 0)) s.natAbs 1 e0
  | fin _ _ _, inf s2 => inf s2
  | inf s1, fin _ _ _ => inf s1
  | inf s1, inf s2 => if s1 = s2 then inf s1 else nan
  | nan, _ => nan
  | _, nan => nan

/-- The quotient `a / b` of two doubles; `0/0` is not-a-number, `x/0` an infinity. -/
def div : Dbl → Dbl → Dbl
  | fin s1 m1 e1, fin s2 m2 e2 =>
    if m2 = 0 then (if m1 = 0 then nan else inf (xor s1 s2))
    else round (xor s1 s2) m1 m2 (e1 - e2)
  | fin s1 _ _, inf s2 => fin (xor s1 s2) 0 0
  | inf s1, fin s2 _ _ => inf (xor s1 s2)
  | inf _, inf _ => nan
  | nan, _ => nan
  | _, nan => nan

/-- The rational number `(-1)^neg · m · 2^e`. -/
def val (neg : Bool) (m : Nat) (e : Int) : ℚ := (if neg then -1 else 1) * (m : ℚ) * (2 : ℚ) ^ e

end Dbl

/-! ## The type `int` -/

/-- Reduction of an integer to the range of a 32-bit signed `int`. -/
def wrap32 (x : Int) : Int := (x + 2 ^ 31) % 2 ^ 32 - 2 ^ 31

/-! ## Library functions -/

/-- The functions of the C and boost libraries that `main.cpp` calls. -/
structure Externals where
  atof : List Char → Dbl
  cos : Dbl → Dbl
  sin : Dbl → Dbl
  tan : Dbl → Dbl
  sqrt : Dbl → Dbl
  pow : Dbl → Dbl → Dbl
  lexical_cast : Dbl → List Char

/-! ## `Request::calculateAnswer` -/

/-- What `calculateAnswer` leaves behind: `failure` is `return false`, `success a` is
`return true` with `answer_ == a`, and `uninit` is `return true` after `answer_` was
assigned from the local `n3` that no statement had written. -/
inductive EvalResult where
  | failure
  | success (answer : Dbl)
  | uninit
  deriving DecidableEq, Repr

/-- The loop `for (int i = 1; i <= parameters[0]; i++) answer_ *= i;`
entered with the current `i` and `answer_`. -/
def factorialLoop (p : Dbl) : Nat → Int → Dbl → Option Dbl
  | 0, _, _ => none
  | fuel + 1, i, answer_ =>
    if Dbl.le (Dbl.ofInt i) p then
      factorialLoop p fuel (wrap32 (i + 1)) (Dbl.mul answer_ (Dbl.ofInt i))
    else some answer_

/-- The loop `for (int i = 2; i < parameters[0]; i++) { n3 = n1 + n2; n1 = n2; n2 = n3; }`
entered with the current `i`, `n1`, `n2` and `n3` (`none` while `n3` is unassigned). -/
def fibonacciLoop (p : Dbl) : Nat → Int → Int → Int → Option Int → Option (Option Int)
  | 0, _, _, _, _ => none
  | fuel + 1, i, n1, n2, n3 =>
    if Dbl.lt (Dbl.ofInt i) p then
      fibonacciLoop p fuel (wrap32 (i + 1)) n2 (wrap32 (n1 + n2)) (some (wrap32 (n1 + n2)))
    else some n3

/-- The loop `for (auto i : parameters) answer_ += i;`. -/
def absLoop : Dbl → List Dbl → Dbl
  | answer_, [] => answer_
  | answer_, i :: rest => absLoop (Dbl.add answer_ i) rest

/-- The text of an operation name. -/
def opName (s : String) : List Char := s.toList

/-- The method `Request::calculateAnswer`. -/
def calculateAnswer (env : Externals) (fuel : Nat) (operation : List Char)
    (parameters : List Dbl) : Option EvalResult :=
  let p0 := parameters.getD 0 Dbl.nan
  let p1 := parameters.getD 1 Dbl.nan
  if operation = opName "factorial" ∧ parameters.length = 1 then
    if Dbl.lt p0 (Dbl.ofInt 0) then some EvalResult.failure
    else (factorialLoop p0 fuel 1 (Dbl.ofInt 1)).map EvalResult.success
  else if operation = opName "fibonacci" ∧ parameters.length = 1 then
    if Dbl.lt p0 (Dbl.ofInt 3) then some (EvalResult.success (Dbl.ofInt 1))
    else
      match fibonacciLoop p0 fuel 2 0 1 none with
      | none => none
      | some none => some EvalResult.uninit
      | some (some n3) => some (EvalResult.success (Dbl.ofInt n3))
  else if operation = opName "cos" ∧ parameters.length = 1 then
    some (EvalResult.success (env.cos p0))
  else if operation = opName "sin" ∧ parameters.length = 1 then
    some (EvalResult.success (env.sin p0))
  else if operation = opName "tan" ∧ parameters.length = 1 then
    some (EvalResult.success (env.tan p0))
  else if operation = opName "sqrt" ∧ parameters.length = 1 then
    some (EvalResult.success (env.sqrt p0))
  else if operation = opName "pow" ∧ parameters.length = 2 then
    some (EvalResult.success (env.pow p0 p1))
  else if operation = opName "abs" then
    some (EvalResult.success
      (Dbl.div (absLoop (Dbl.ofInt 0) parameters) (Dbl.ofNat parameters.length)))
  else some EvalResult.failure

/-! ## Strings and streams -/

/-- The call `std::getline(is, buffer)`: the bytes before the first line feed, and the
bytes left in the stream after it (the line feed is consumed and not stored). -/
def getline : List Char → List Char × List Char
  | [] => ([], [])
  | c :: cs => if c = '\n' then ([], cs) else ((getline cs).1.cons c, (getline cs).2)

/-- The call `boost::split(out, s, boost::is_any_of(sep))`: the pieces of `s` between
the occurrences of `sep`, empty pieces included. -/
def split (sep : Char) : List Char → List (List Char)
  | [] => [[]]
  | c :: cs =>
    if c = sep then [] :: split sep cs
    else ((split sep cs).headD []).cons c :: (split sep cs).tail

/-- The constant `std::string::npos` of a 64-bit `size_t`. -/
def npos : Nat := 2 ^ 64 - 1

/-- Position of the first `c` in `s`, counted from `i`. -/
def findFrom (c : Char) : List Char → Nat → Nat
  | [], _ => npos
  | d :: ds, i => if d = c then i else findFrom c ds (i + 1)

/-- The call `s.find_first_of(c)`. -/
def find_first_of (s : List Char) (c : Char) : Nat := findFrom c s 0

/-- The call `s.substr(pos, n)`; the source calls it with `pos <= s.size()` only. -/
def substr (s : List Char) (pos n : Nat) : List Char := (s.drop pos).take n

/-- The call `s.c_str()` as a C function reads it: the bytes before the first NUL. -/
def c_str (s : List Char) : List Char := s.takeWhile (fun c => c != Char.ofNat 0)

/-- The decimal digits that `operator<<` prints for a `size_t`. -/
def decimal (n : Nat) : List Char := Nat.toDigits 10 n

/-- The loop `while (std::getline(is, buffer, '\n')) { if (buffer.empty() || buffer == "\r")
break; ... }` of `afterRead`: the bytes left in the stream when the loop is left.  Each
round reads at least one byte, so `fuel` never runs out when it starts at the length of
the stream. -/
def headerLoop : Nat → List Char → List Char
  | 0, is => is
  | fuel + 1, is =>
    if is = [] then []
    else if (getline is).1 = [] ∨ (getline is).1 = ['\r'] then (getline is).2
    else headerLoop fuel (getline is).2

/-! ## The class `Request` -/

/-- The state of one `Request` object: its two stream buffers, `answer_`, whether
`socket` is set, and counters of the asynchronous reads and writes it has started, of
the calls of `socket->close()`, and the calls of `calculateAnswer` it has made. -/
structure Request where
  request : List Char
  response : List Char
  answer_ : Dbl
  socket : Bool
  reads : Nat
  writes : Nat
  closes : Nat
  evaluated : List (List Char × List Dbl)

/-- The bytes that `writeError` streams into `res_stream`. -/
def errorText (error : List Char) : List Char :=
  "HTTP/1.0 400 Bad Request\r\n".toList
    ++ "Content-Type: text/html; charset=UTF-8\r\n".toList
    ++ "Content-Length: ".toList ++ decimal ((error.length + 2) % 2 ^ 64) ++ "\r\n\r\n".toList
    ++ error ++ "\r\n".toList

/-- The bytes that `writeAnswer` streams into `res_stream`. -/
def answerText (answer : List Char) : List Char :=
  "HTTP/1.0 200 OK\r\n".toList
    ++ "Content-Type: text/html; charset=UTF-8\r\n".toList
    ++ "Content-Length: ".toList ++ decimal ((answer.length + 2) % 2 ^ 64) ++ "\r\n\r\n".toList
    ++ answer ++ "\r\n".toList

namespace Request

/-- The method `Request::writeError`: format into `response`, start the write. -/
def writeError (r : Request) (error : List Char) : Request :=
  { r with response := r.response ++ errorText error, writes := r.writes + 1 }

/-- The method `Request::writeAnswer`: format into `response`, start the write. -/
def writeAnswer (r : Request) (answer : List Char) : Request :=
  { r with response := r.response ++ answerText answer, writes := r.writes + 1 }

/-- The method `Request::afterWrite`: close the socket, whatever `ec` is. -/
def afterWrite (r : Request) (_ec : Nat) (_bytes_transferred : Nat) : Request :=
  { r with closes := r.closes + 1 }

/-- The method `Request::answer`: start the delimited read if `socket` is set. -/
def answer (r : Request) : Request :=
  if r.socket then { r with reads := r.reads + 1 } else r

/-- The message of the method check. -/
def wrongTypeMsg : List Char := "Wrong request type!\r\nSupported requests: POST, GET".toList

/-- The message of the argument check. -/
def notEnoughMsg : List Char := "Not enough arguments.\r\nExample:\r\nfibonacci 10".toList

/-- The message after a failed evaluation. -/
def wrongParamsMsg : List Char := "Wrong parameters".toList

/-- The value `answer_` holds after `calculateAnswer` has returned; `unassigned` is the
value that the read of the never-assigned `n3` gives in this call. -/
def answerAfter (unassigned : Int) : EvalResult → Dbl
  | EvalResult.failure => Dbl.ofInt 0
  | EvalResult.success a => a
  | EvalResult.uninit => Dbl.ofInt unassigned

/-- The method `Request::afterRead`, the completion handler of the delimited read.
`ec` is the error code of the read (`0` for success); the source never looks at it.
`unassigned` is what a read of an `int` that was never assigned gives during this call:
the source fixes no such value, so it is an input of every call and may differ from one
call to the next.  The result is `none` when the evaluation does not finish within
`fuel`. -/
def afterRead (env : Externals) (unassigned : Int) (fuel : Nat) (r : Request) (_ec : Nat)
    (_bytes_transferred : Nat) : Option Request :=
  let buffer := (getline r.request).1
  let is1 := (getline r.request).2
  let requestMethod := split ' ' buffer
  if requestMethod.headD [] ≠ "GET".toList ∧ requestMethod.headD [] ≠ "POST".toList then
    some (writeError { r with request := is1 } wrongTypeMsg)
  else
    let arguments := headerLoop is1.length is1
    let equals_idx := find_first_of arguments ' '
    let operation := substr arguments 0 equals_idx
    let sParameters := split ',' (substr arguments ((equals_idx + 1) % 2 ^ 64) npos)
    if sParameters = [] ∨ operation = [] then
      some (writeError { r with request := [] } notEnoughMsg)
    else
      let dParameters := sParameters.map (fun sParam => env.atof (c_str sParam))
      match calculateAnswer env fuel operation dParameters with
      | none => none
      | some res =>
        let r1 : Request :=
          { r with request := [], answer_ := answerAfter unassigned res,
                   evaluated := r.evaluated ++ [(operation, dParameters)] }
        if res = EvalResult.failure then some (writeError r1 wrongParamsMsg)
        else some (writeAnswer r1 (env.lexical_cast r1.answer_))

end Request

/-! ## Notions of the specification -/

/-- Whitespace bytes: space, tab, line feed, vertical tab, form feed, carriage return. -/
def isWhitespace (c : Char) : Bool :=
  c = ' ' || c = '\t' || c = '\n' || c = Char.ofNat 11 || c = Char.ofNat 12 || c = '\r'

/-- The first line of a request: its bytes before the first line feed. -/
def firstLine (req : List Char) : List Char := req.takeWhile (fun c => c != '\n')

/-- The first whitespace-delimited token of a line. -/
def firstToken (line : List Char) : List Char :=
  (line.dropWhile isWhitespace).takeWhile (fun c => !isWhitespace c)

/-- The bytes of `s` that follow its first blank line (the first `\r\n\r\n`). -/
def afterBlankLine : List Char → Option (List Char)
  | [] => none
  | c :: cs =>
    if "\r\n\r\n".toList.isPrefixOf (c :: cs) then some ((c :: cs).drop 4)
    else afterBlankLine cs

/-- A request on the wire: the method, a space, the rest of the first line, then the
header lines, the blank line and the body, every line ended by `\r\n`. -/
def mkRequest (method target : List Char) (headers : List (List Char)) (body : List Char) :
    List Char :=
  method ++ ' ' :: target ++ "\r\n".toList
    ++ (headers.map (fun h => h ++ "\r\n".toList)).flatten ++ "\r\n".toList ++ body

/-- A header line as the wire format allows it: not empty and without a line feed. -/
def headerOk (h : List Char) : Prop := h ≠ [] ∧ '\n' ∉ h

/-- A fresh `Request` whose input buffer holds `req`. -/
def received (req : List Char) : Request :=
  { request := req, response := [], answer_ := Dbl.ofInt 0, socket := true,
    reads := 1, writes := 0, closes := 0, evaluated := [] }

/-- The number that a text of decimal digits denotes. -/
def decimalValue (ds : List Char) : Nat :=
  ds.foldl (fun acc c => 10 * acc + (c.toNat - 48)) 0

/-- The integer that a double equals, when it is finite and has no fractional part. -/
def Dbl.toInt : Dbl → Option Int
  | Dbl.fin s m e =>
    if 0 ≤ e then some ((if s then -1 else 1) * ((m : Int) * 2 ^ e.toNat))
    else if m % 2 ^ (-e).toNat = 0 then some ((if s then -1 else 1) * ((m / 2 ^ (-e).toNat : Nat) : Int))
    else none
  | _ => none

/-- The arithmetic mean of the specification, in `double` arithmetic: the sum of the
parameters, taken from left to right, divided by their count. -/
def Dbl.mean (xs : List Dbl) : Dbl :=
  Dbl.div (xs.foldl Dbl.add (Dbl.ofInt 0)) (Dbl.ofNat xs.length)

/-- Library functions for evaluating examples.  `atof` reads the decimal digits a text
starts with (`0` when it starts with none) and `lexical_cast` prints a double that is
an integer in decimal; on such texts and values the C and boost functions do the same.
The other functions are not used by the examples and return their argument. -/
def Externals.sample : Externals where
  atof := fun s => Dbl.ofNat (decimalValue (s.takeWhile Char.isDigit))
  cos := fun x => x
  sin := fun x => x
  tan := fun x => x
  sqrt := fun x => x
  pow := fun x _ => x
  lexical_cast := fun d =>
    match d.toInt with
    | some i => if i < 0 then '-' :: Nat.toDigits 10 i.natAbs else Nat.toDigits 10 i.natAbs
    | none => []

/-! ## The loop of `fibonacci`, observed -/

/-- The sums `n1 + n2` that the loop of `fibonacci` computes, in the order in which it
computes them, each as the integer it is before it is stored in the 32-bit `n3`. -/
def fibonacciSums (p : Dbl) : Nat → Int → Int → Int → List Int
  | 0, _, _, _ => []
  | fuel + 1, i, n1, n2 =>
    if Dbl.lt (Dbl.ofInt i) p then
      (n1 + n2) :: fibonacciSums p fuel (wrap32 (i + 1)) n2 (wrap32 (n1 + n2))
    else []

/-! ## The class `HttpServer` -/

/-- The constructor `Request::Request`: empty buffers and a socket; `answer_` has no
initial value in the source and is given `0.0` here. -/
def Request.create : Request :=
  { request := [], response := [], answer_ := Dbl.ofInt 0, socket := true,
    reads := 0, writes := 0, closes := 0, evaluated := [] }

/-- The list `l` with `f` applied to its element number `i`. -/
def updateAt {α : Type} (f : α → α) : List α → Nat → List α
  | [], _ => []
  | x :: xs, 0 => f x :: xs
  | x :: xs, i + 1 => x :: updateAt f xs i

/-- The state of the `HttpServer` object: the `Request` objects that `start_accept` has
constructed, in the order of their construction (the position of a `Request` is its
identity), and the accepts that are pending, each named by the `Request` it will fill. -/
structure HttpServer where
  requests : List Request
  pending : List Nat

namespace HttpServer

/-- The method `HttpServer::start_accept`: construct a `Request`, start an accept on it. -/
def start_accept (s : HttpServer) : HttpServer :=
  { requests := s.requests ++ [Request.create], pending := s.pending ++ [s.requests.length] }

/-- The method `HttpServer::handle_accept`, the completion handler of the accept on the
`Request` number `req`; `error` is the error code of the accept (`0` for success). -/
def handle_accept (s : HttpServer) (req : Nat) (error : Nat) : HttpServer :=
  start_accept
    (if error = 0 then { s with requests := updateAt Request.answer s.requests req } else s)

/-- The state in which `thread_main` enters `io_service.run()`. -/
def thread_main : HttpServer := start_accept { requests := [], pending := [] }

/-- What `io_service.run()` does when the oldest pending accept completes with `error`:
the accept is no longer pending and its handler is called (`none` when none is pending). -/
def acceptCompletes (s : HttpServer) (error : Nat) : Option HttpServer :=
  match s.pending with
  | [] => none
  | req :: rest => some (handle_accept { s with pending := rest } req error)

/-- The accept loop: the pending accepts complete one after the other with the error
codes `errors`. -/
def acceptLoop : List Nat → HttpServer → Option HttpServer
  | [], s => some s
  | error :: errors, s =>
    match acceptCompletes s error with
    | none => none
    | some s1 => acceptLoop errors s1

end HttpServer

/-! ## Interleaved connections -/

/-- A completion that `io_service.run()` delivers to a `Request`: the end of its read
or the end of its write, with the error code and the byte count; the end of a read also
carries what a read of a never-assigned `int` gives during the call of its handler. -/
inductive Completion where
  | readDone (ec n : Nat) (unassigned : Int)
  | writeDone (ec n : Nat)

/-- The handler that a completion calls on its `Request`. -/
def Request.handle (env : Externals) (fuel : Nat) (r : Request) : Completion → Option Request
  | Completion.readDone ec n unassigned => Request.afterRead env unassigned fuel r ec n
  | Completion.writeDone ec n => some (Request.afterWrite r ec n)

/-- The handlers of one `Request` alone, called one after the other. -/
def runAlone (env : Externals) (fuel : Nat) : List Completion → Request → Option Request
  | [], r => some r
  | c :: cs, r =>
    match Request.handle env fuel r c with
    | none => none
    | some r1 => runAlone env fuel cs r1

/-- The list `l` with `x` as its element number `i`. -/
def setAt {α : Type} (x : α) : List α → Nat → List α
  | [], _ => []
  | _ :: ys, 0 => x :: ys
  | y :: ys, i + 1 => y :: setAt x ys i

/-- One turn of the single thread that runs `io_service.run()`: the completion `c` of the
connection number `i` calls its handler, which runs to its end before the next turn;
`none` when the handler does not return. -/
def dispatch (env : Externals) (fuel : Nat) (conns : List Request) (i : Nat) (c : Completion) :
    Option (List Request) :=
  match conns[i]? with
  | none => some conns
  | some r =>
    match Request.handle env fuel r c with
    | none => none
    | some r1 => some (setAt r1 conns i)

/-- The completions of several connections, delivered in the order of `schedule`. -/
def runSchedule (env : Externals) (fuel : Nat) :
    List (Nat × Completion) → List Request → Option (List Request)
  | [], conns => some conns
  | (i, c) :: rest, conns =>
    match dispatch env fuel conns i c with
    | none => none
    | some conns1 => runSchedule env fuel rest conns1

/-- The completions of the connection number `i` in a schedule, in their order. -/
def completionsOf (i : Nat) : List (Nat × Completion) → List Completion
  | [] => []
  | (j, c) :: rest => if j = i then c :: completionsOf i rest else completionsOf i rest

/-! # Theorems -/

/-! ## Order of the doubles -/

namespace Dbl

theorem key_cast (s : Bool) (m : Nat) (e e0 : Int) (h : e0 ≤ e) :
    ((key s m e e0 : Int) : ℚ) = val s m e * ((2 : ℚ) ^ e0)⁻¹ := by
  have h2 : ((2 : ℚ) ^ (e - e0).toNat) = (2 : ℚ) ^ e * ((2 : ℚ) ^ e0)⁻¹ := by
    rw [← zpow_natCast, Int.toNat_of_nonneg (by omega), zpow_sub₀ (by norm_num)]
    rfl
  unfold key val
  push_cast
  rw [h2]
  split <;> ring

theorem key_le_iff (s1 : Bool) (m1 : Nat) (e1 : Int) (s2 : Bool) (m2 : Nat) (e2 : Int) :
    key s1 m1 e1 (min e1 e2) ≤ key s2 m2 e2 (min e1 e2) ↔ val s1 m1 e1 ≤ val s2 m2 e2 := by
  have hpos : (0 : ℚ) < ((2 : ℚ) ^ (min e1 e2))⁻¹ := by positivity
  rw [← Int.cast_le (R := ℚ), key_cast _ _ _ _ (min_le_left e1 e2),
    key_cast _ _ _ _ (min_le_right e1 e2)]
  exact mul_le_mul_right hpos

theorem key_lt_iff (s1 : Bool) (m1 : Nat) (e1 : Int) (s2 : Bool) (m2 : Nat) (e2 : Int) :
    key s1 m1 e1 (min e1 e2) < key s2 m2 e2 (min e1 e2) ↔ val s1 m1 e1 < val s2 m2 e2 := by
  have hpos : (0 : ℚ) < ((2 : ℚ) ^ (min e1 e2))⁻¹ := by positivity
  rw [← Int.cast_lt (R := ℚ), key_cast _ _ _ _ (min_le_left e1 e2),
    key_cast _ _ _ _ (min_le_right e1 e2)]
  exact mul_lt_mul_right hpos

theorem le_of_le_of_le {a b c : Dbl} (hab : le a b = true) (hbc : le b c = true) : le a c = true := by
  cases a with
  | nan => simp [le] at hab
  | inf sa =>
    cases sa with
    | true => cases c with
      | nan => cases b with
        | nan => simp [le] at hab
        | inf sb => cases sb <;> simp [le] at hbc
        | fin _ _ _ => simp [le] at hbc
      | inf sc => simp [le]
      | fin _ _ _ => simp [le]
    | false => cases b with
      | nan => simp [le] at hab
      | inf sb => cases sb with
        | true => simp [le] at hab
        | false => cases c with
          | nan => simp [le] at hbc
          | inf sc => cases sc <;> simp [le] at hbc ⊢
          | fin _ _ _ => simp [le] at hbc
      | fin _ _ _ => simp [le] at hab
  | fin sa ma ea =>
    cases b with
    | nan => simp [le] at hab
    | inf sb => cases sb with
      | true => simp [le] at hab
      | false => cases c with
        | nan => simp [le] at hbc
        | inf sc => cases sc <;> simp [le] at hbc ⊢
        | fin _ _ _ => simp [le] at hbc
    | fin sb mb eb => cases c with
      | nan => simp [le] at hbc
      | inf sc => cases sc <;> simp [le] at hbc ⊢
      | fin sc mc ec =>
        simp only [le, decide_eq_true_eq, key_le_iff] at hab hbc ⊢
        exact hab.trans hbc

theorem not_le_of_lt {a b : Dbl} (hab : lt a b = true) : le b a = false := by
  cases a with
  | nan => simp [lt] at hab
  | inf sa => cases sa <;> cases b with
    | nan => simp [lt] at hab
    | inf sb => cases sb <;> simp [lt, le] at hab ⊢
    | fin _ _ _ => simp [lt, le] at hab ⊢
  | fin sa ma ea => cases b with
    | nan => simp [lt] at hab
    | inf sb => cases sb <;> simp [lt, le] at hab ⊢
    | fin sb mb eb =>
      simp only [lt, le, decide_eq_true_eq, decide_eq_false_iff_not, key_le_iff, key_lt_iff] at hab ⊢
      exact not_le.mpr hab

end Dbl

/-! ## Fuel -/

theorem factorialLoop_fuel (p : Dbl) (f k : Nat) (i : Int) (a r : Dbl)
    (h : factorialLoop p f i a = some r) : factorialLoop p (f + k) i a = some r := by
  induction f generalizing i a with
  | zero => simp [factorialLoop] at h
  | succ f ih =>
    rw [Nat.add_right_comm]
    simp only [factorialLoop] at h ⊢
    split
    · rename_i hc
      rw [if_pos hc] at h
      exact ih _ _ h
    · rename_i hc
      rw [if_neg hc] at h
      exact h

theorem fibonacciLoop_fuel (p : Dbl) (f k : Nat) (i n1 n2 : Int) (n3 r : Option Int)
    (h : fibonacciLoop p f i n1 n2 n3 = some r) :
    fibonacciLoop p (f + k) i n1 n2 n3 = some r := by
  induction f generalizing i n1 n2 n3 with
  | zero => simp [fibonacciLoop] at h
  | succ f ih =>
    rw [Nat.add_right_comm]
    simp only [fibonacciLoop] at h ⊢
    split
    · rename_i hc
      rw [if_pos hc] at h
      exact ih _ _ _ _ h
    · rename_i hc
      rw [if_neg hc] at h
      exact h

/-! ## Factorial -/

theorem ofInt_le_small : ∀ i j : Fin 24, i ≤ j →
    Dbl.le (Dbl.ofInt ((i : Nat) : Int)) (Dbl.ofInt ((j : Nat) : Int)) = true := by
  decide

theorem factorial_step : ∀ i : Fin 22,
    Dbl.mul (Dbl.ofInt (Nat.factorial i : Nat)) (Dbl.ofInt ((i : Nat) + 1 : Nat))
      = Dbl.ofInt (Nat.factorial (i + 1) : Nat) := by
  decide

theorem wrap32_small : ∀ i : Fin 24, wrap32 (((i : Nat) : Int) + 1) = ((i : Nat) : Int) + 1 := by
  decide

theorem Dbl.not_lt_of_le {a b : Dbl} (hab : Dbl.le a b = true) : Dbl.lt b a = false := by
  cases a with
  | nan => simp [Dbl.le] at hab
  | inf sa => cases sa <;> cases b with
    | nan => simp [Dbl.le] at hab
    | inf sb => cases sb <;> simp [Dbl.lt, Dbl.le] at hab ⊢
    | fin _ _ _ => simp [Dbl.lt, Dbl.le] at hab ⊢
  | fin sa ma ea => cases b with
    | nan => simp [Dbl.le] at hab
    | inf sb => cases sb <;> simp [Dbl.lt, Dbl.le] at hab ⊢
    | fin sb mb eb =>
      simp only [Dbl.lt, Dbl.le, decide_eq_true_eq, decide_eq_false_iff_not, Dbl.key_le_iff,
        Dbl.key_lt_iff] at hab ⊢
      exact not_lt.mpr hab

theorem factorialLoop_exact (p : Dbl) (k : Nat) (hk : k ≤ 22)
    (hle : Dbl.le (Dbl.ofInt (k : Nat)) p = true)
    (hlt : Dbl.lt p (Dbl.ofInt ((k + 1 : Nat) : Int)) = true) :
    ∀ d j : Nat, j + d = k →
      factorialLoop p (d + 1) ((j + 1 : Nat) : Int) (Dbl.ofInt (Nat.factorial j : Nat))
        = some (Dbl.ofInt (Nat.factorial k : Nat)) := by
  intro d
  induction d with
  | zero =>
    intro j hj
    simp only [Nat.add_zero] at hj
    subst hj
    rw [factorialLoop, if_neg (by rw [Dbl.not_le_of_lt hlt]; simp)]
  | succ d ih =>
    intro j hj
    have hj1 : j + 1 < 24 := by omega
    have hc : Dbl.le (Dbl.ofInt ((j + 1 : Nat) : Int)) p = true :=
      Dbl.le_of_le_of_le (ofInt_le_small ⟨j + 1, hj1⟩ ⟨k, by omega⟩ (by simp [Fin.le_def]; omega)) hle
    have hw := wrap32_small ⟨j + 1, hj1⟩
    have hm := factorial_step ⟨j, by omega⟩
    simp only [] at hw hm
    rw [factorialLoop, if_pos hc, hw, hm]
    exact ih (j + 1) (by omega)

theorem ofInt_factorial_toInt : ∀ k : Fin 23,
    (Dbl.ofInt (Nat.factorial k : Nat)).toInt = some ((Nat.factorial k : Nat) : Int) := by
  decide

theorem ofInt_floor_small : ∀ n : Fin 23,
    Dbl.le (Dbl.ofInt ((n : Nat) : Int)) (Dbl.ofInt ((n : Nat) : Int)) = true ∧
    Dbl.lt (Dbl.ofInt ((n : Nat) : Int)) (Dbl.ofInt (((n : Nat) + 1 : Nat) : Int)) = true := by
  decide

/-- C1 (amended): `factorial` with one parameter `n` fails when `n < 0`; when `n >= 0` and
`floor(n) = k <= 22` it succeeds, with any fuel above `k`, with exactly `k!`; in particular
for every integer `0 <= n <= 20` the result is exactly `n!`. -/
theorem calculateAnswer_factorial (env : Externals) :
    (∀ p : Dbl, Dbl.lt p (Dbl.ofInt 0) = true → ∀ fuel : Nat,
      calculateAnswer env fuel (opName "factorial") [p] = some EvalResult.failure) ∧
    (∀ (p : Dbl) (k : Nat), k ≤ 22 → Dbl.le (Dbl.ofInt (k : Nat)) p = true →
      Dbl.lt p (Dbl.ofInt ((k + 1 : Nat) : Int)) = true → ∀ fuel : Nat, k < fuel →
      calculateAnswer env fuel (opName "factorial") [p]
          = some (EvalResult.success (Dbl.ofInt (Nat.factorial k : Nat))) ∧
        (Dbl.ofInt (Nat.factorial k : Nat)).toInt = some ((Nat.factorial k : Nat) : Int)) ∧
    (∀ n : Nat, n ≤ 20 → ∀ fuel : Nat, n < fuel →
      calculateAnswer env fuel (opName "factorial") [Dbl.ofInt (n : Nat)]
          = some (EvalResult.success (Dbl.ofInt (Nat.factorial n : Nat))) ∧
        (Dbl.ofInt (Nat.factorial n : Nat)).toInt = some ((Nat.factorial n : Nat) : Int)) := by
  have main : ∀ (p : Dbl) (k : Nat), k ≤ 22 → Dbl.le (Dbl.ofInt (k : Nat)) p = true →
      Dbl.lt p (Dbl.ofInt ((k + 1 : Nat) : Int)) = true → ∀ fuel : Nat, k < fuel →
      calculateAnswer env fuel (opName "factorial") [p]
          = some (EvalResult.success (Dbl.ofInt (Nat.factorial k : Nat))) ∧
        (Dbl.ofInt (Nat.factorial k : Nat)).toInt = some ((Nat.factorial k : Nat) : Int) := by
    intro p k hk hle hlt fuel hfuel
    refine ⟨?_, ofInt_factorial_toInt ⟨k, by omega⟩⟩
    have h0 : Dbl.le (Dbl.ofInt 0) p = true :=
      Dbl.le_of_le_of_le (ofInt_le_small ⟨0, by omega⟩ ⟨k, by omega⟩ (by simp [Fin.le_def])) hle
    have hloop := factorialLoop_fuel p (k + 1) (fuel - (k + 1)) _ _ _
      (factorialLoop_exact p k hk hle hlt k 0 (by omega))
    have hf : k + 1 + (fuel - (k + 1)) = fuel := by omega
    rw [hf] at hloop
    have h1 : ((0 + 1 : Nat) : Int) = 1 := rfl
    have h2 : Dbl.ofInt ((Nat.factorial 0 : Nat) : Int) = Dbl.ofInt 1 := rfl
    rw [h1, h2] at hloop
    simp [calculateAnswer, Dbl.not_lt_of_le h0, hloop]
  refine ⟨?_, main, ?_⟩
  · intro p hp fuel
    simp [calculateAnswer, hp]
  · intro n hn fuel hfuel
    have hs := ofInt_floor_small ⟨n, by omega⟩
    exact main _ n (by omega) hs.1 hs.2 fuel hfuel

/-- C1 (witness): `factorial 5` is `120`. -/
theorem calculateAnswer_factorial_witness :
    calculateAnswer Externals.sample 6 (opName "factorial") [Dbl.ofInt 5]
        = some (EvalResult.success (Dbl.ofInt 120)) ∧
      (Dbl.ofInt 120).toInt = some 120 :=
  (calculateAnswer_factorial Externals.sample).2.2 5 (by decide) 6 (by decide)

/-- C1 (counterexample): `factorial 23` succeeds with `6163601097794766 · 2^22`, the double
nearest to `22! · 23`, which is not the product `23!` of the integers `1..23`. -/
theorem calculateAnswer_factorial_23 :
    calculateAnswer Externals.sample 24 (opName "factorial") [Dbl.ofInt 23]
        = some (EvalResult.success (Dbl.fin false 6163601097794766 22)) ∧
      (Dbl.fin false 6163601097794766 22).toInt = some 25852016738884978212864 ∧
      (25852016738884978212864 : Int) ≠ ((Nat.factorial 23 : Nat) : Int) := by
  decide

/-! ## Fibonacci -/

theorem fibonacciLoop_small : ∀ n : Fin 48, 3 ≤ (n : Nat) →
    Dbl.lt (Dbl.ofInt ((n : Nat) : Int)) (Dbl.ofInt 3) = false ∧
      fibonacciLoop (Dbl.ofInt ((n : Nat) : Int)) ((n : Nat) - 1) 2 0 1 none
        = some (some ((Nat.fib ((n : Nat) - 1) : Nat) : Int)) ∧
      (Dbl.ofInt ((Nat.fib ((n : Nat) - 1) : Nat) : Int)).toInt
        = some ((Nat.fib ((n : Nat) - 1) : Nat) : Int) := by
  decide

/-- C2 (amended): `fibonacci` with one parameter `n < 3` succeeds with `1`; for every
integer `3 <= n <= 47` it succeeds, with any fuel from `n - 1` on, with exactly `F(n-1)`
(`F(0) = 0`, `F(1) = 1`); `fibonacci 10` is `34`. -/
theorem calculateAnswer_fibonacci (env : Externals) :
    (∀ p : Dbl, Dbl.lt p (Dbl.ofInt 3) = true → ∀ fuel : Nat,
      calculateAnswer env fuel (opName "fibonacci") [p]
        = some (EvalResult.success (Dbl.ofInt 1))) ∧
    (∀ n : Nat, 3 ≤ n → n ≤ 47 → ∀ fuel : Nat, n ≤ fuel + 1 →
      calculateAnswer env fuel (opName "fibonacci") [Dbl.ofInt (n : Nat)]
          = some (EvalResult.success (Dbl.ofInt (Nat.fib (n - 1) : Nat))) ∧
        (Dbl.ofInt (Nat.fib (n - 1) : Nat)).toInt = some ((Nat.fib (n - 1) : Nat) : Int)) ∧
    calculateAnswer env 9 (opName "fibonacci") [Dbl.ofInt 10]
      = some (EvalResult.success (Dbl.ofInt 34)) := by
  have main : ∀ n : Nat, 3 ≤ n → n ≤ 47 → ∀ fuel : Nat, n ≤ fuel + 1 →
      calculateAnswer env fuel (opName "fibonacci") [Dbl.ofInt (n : Nat)]
          = some (EvalResult.success (Dbl.ofInt (Nat.fib (n - 1) : Nat))) ∧
        (Dbl.ofInt (Nat.fib (n - 1) : Nat)).toInt = some ((Nat.fib (n - 1) : Nat) : Int) := by
    intro n h3 h47 fuel hfuel
    obtain ⟨hlt, hloop, hint⟩ := fibonacciLoop_small ⟨n, by omega⟩ h3
    simp only [] at hlt hloop hint
    refine ⟨?_, hint⟩
    have hl := fibonacciLoop_fuel _ (n - 1) (fuel - (n - 1)) _ _ _ _ _ hloop
    have hf : n - 1 + (fuel - (n - 1)) = fuel := by omega
    rw [hf] at hl
    have hne : opName "fibonacci" ≠ opName "factorial" := by decide
    simp [calculateAnswer, hne, hlt, hl]
  refine ⟨?_, main, ?_⟩
  · intro p hp fuel
    have hne : opName "fibonacci" ≠ opName "factorial" := by decide
    simp [calculateAnswer, hne, hp]
  · exact (main 10 (by decide) (by decide) 9 (by decide)).1

/-- C2 (witness): `fibonacci 10` is `34 = F(9)`. -/
theorem calculateAnswer_fibonacci_witness :
    calculateAnswer Externals.sample 9 (opName "fibonacci") [Dbl.ofInt 10]
        = some (EvalResult.success (Dbl.ofInt 34)) ∧
      (Dbl.ofInt 34).toInt = some 34 :=
  (calculateAnswer_fibonacci Externals.sample).2.1 10 (by decide) (by decide) 9 (by decide)

/-- C2 (counterexample): `fibonacci 48` succeeds with `-1323752223`, the 32-bit
wrap-around of `F(47) = 2971215073`, and not with `F(47)`. -/
theorem calculateAnswer_fibonacci_48 :
    calculateAnswer Externals.sample 47 (opName "fibonacci") [Dbl.ofInt 48]
        = some (EvalResult.success (Dbl.ofInt (-1323752223))) ∧
      (Dbl.ofInt (-1323752223)).toInt = some (-1323752223) ∧
      ((Nat.fib 47 : Nat) : Int) = 2971215073 ∧
      (-1323752223 : Int) ≠ ((Nat.fib 47 : Nat) : Int) := by
  decide

/-! ## The operation `abs` -/

theorem absLoop_eq_foldl (xs : List Dbl) (a : Dbl) : absLoop a xs = xs.foldl Dbl.add a := by
  induction xs generalizing a with
  | nil => rfl
  | cons x xs ih => exact ih _

theorem opName_abs_ne :
    opName "abs" ≠ opName "factorial" ∧ opName "abs" ≠ opName "fibonacci" ∧
    opName "abs" ≠ opName "cos" ∧ opName "abs" ≠ opName "sin" ∧ opName "abs" ≠ opName "tan" ∧
    opName "abs" ≠ opName "sqrt" ∧ opName "abs" ≠ opName "pow" := by
  decide

theorem calculateAnswer_abs_eq (env : Externals) (fuel : Nat) (ps : List Dbl) :
    calculateAnswer env fuel (opName "abs") ps = some (EvalResult.success (Dbl.mean ps)) := by
  obtain ⟨h1, h2, h3, h4, h5, h6, h7⟩ := opName_abs_ne
  simp [calculateAnswer, h1, h2, h3, h4, h5, h6, h7, Dbl.mean, absLoop_eq_foldl]

/-- C8 (amended): `abs` with an empty parameter list succeeds; `answer_` is `0.0 / 0.0`,
which is not-a-number, and no failure is reported. -/
theorem calculateAnswer_abs_nil (env : Externals) (fuel : Nat) :
    calculateAnswer env fuel (opName "abs") [] = some (EvalResult.success Dbl.nan) ∧
      Dbl.div (Dbl.ofInt 0) (Dbl.ofNat 0) = Dbl.nan := by
  rw [calculateAnswer_abs_eq]
  decide

/-- C8 (counterexample): `abs` with an empty parameter list does not fail. -/
theorem calculateAnswer_abs_nil_ne_failure :
    calculateAnswer Externals.sample 0 (opName "abs") [] ≠ some EvalResult.failure := by
  decide

/-! ## Lines and tokens -/

theorem getline_fst (s : List Char) : (getline s).1 = firstLine s := by
  induction s with
  | nil => rfl
  | cons c cs ih =>
    by_cases h : c = '\n'
    · simp [getline, firstLine, h]
    · simp [getline, firstLine, h, ih] at ih ⊢

theorem split_head (sep : Char) (s : List Char) :
    (split sep s).headD [] = s.takeWhile (fun c => c != sep) := by
  induction s with
  | nil => rfl
  | cons c cs ih =>
    by_cases h : c = sep
    · simp [split, h]
    · simpa [split, h] using ih

theorem takeWhile_not_whitespace (l : List Char)
    (h : ∀ c ∈ l.takeWhile (fun c => c != ' '), isWhitespace c = false) :
    l.takeWhile (fun c => !isWhitespace c) = l.takeWhile (fun c => c != ' ') := by
  induction l with
  | nil => rfl
  | cons c cs ih =>
    by_cases hc : c = ' '
    · subst hc
      simp [List.takeWhile, isWhitespace]
    · have hc2 : (c != ' ') = true := by simpa using hc
      simp only [List.takeWhile_cons, hc2, if_true] at h ⊢
      have hw : isWhitespace c = false := h c (List.mem_cons_self _ _)
      simp only [hw, Bool.not_false, if_true]
      rw [ih (fun d hd => h d (List.mem_cons_of_mem _ hd))]

theorem firstToken_of_takeWhile (l t : List Char) (ht : l.takeWhile (fun c => c != ' ') = t)
    (hne : t ≠ []) (hws : ∀ c ∈ t, isWhitespace c = false) : firstToken l = t := by
  cases l with
  | nil => exact (hne ht.symm).elim
  | cons c cs =>
    by_cases hc : c = ' '
    · subst hc
      simp at ht
      exact (hne ht).elim
    · have hc2 : (c != ' ') = true := by simpa using hc
      have hmem : c ∈ t := by
        rw [← ht]
        simp only [List.takeWhile_cons, hc2, if_true]
        exact List.mem_cons_self _ _
      have hw : isWhitespace c = false := hws c hmem
      unfold firstToken
      simp only [List.dropWhile_cons, hw, Bool.false_eq_true, if_false]
      rw [takeWhile_not_whitespace _ (by rw [ht]; exact hws)]
      exact ht

/-- C5: when the first whitespace-delimited token of the first line is neither `GET` nor
`POST`, `afterRead` answers, whatever follows in the buffer, with one 400 response whose
body is the wrong-request-type message, which holds both `GET` and `POST`, and makes no
call of `calculateAnswer`. -/
theorem afterRead_wrong_method (env : Externals) (g : Int) (fuel : Nat) (r : Request) (ec n : Nat)
    (hGET : firstToken (firstLine r.request) ≠ "GET".toList)
    (hPOST : firstToken (firstLine r.request) ≠ "POST".toList) :
    (∃ r1 : Request, Request.afterRead env g fuel r ec n = some r1 ∧
      r1.response = r.response ++ errorText Request.wrongTypeMsg ∧
      r1.writes = r.writes + 1 ∧ r1.evaluated = r.evaluated) ∧
    (errorText Request.wrongTypeMsg).take 24 = "HTTP/1.0 400 Bad Request".toList ∧
    afterBlankLine (errorText Request.wrongTypeMsg)
      = some (Request.wrongTypeMsg ++ "\r\n".toList) ∧
    "GET".toList <:+: Request.wrongTypeMsg ∧ "POST".toList <:+: Request.wrongTypeMsg := by
  have h1 : (split ' ' (getline r.request).1).headD [] ≠ "GET".toList := by
    intro h
    rw [split_head, getline_fst] at h
    exact hGET (firstToken_of_takeWhile _ _ h (by decide) (by decide))
  have h2 : (split ' ' (getline r.request).1).headD [] ≠ "POST".toList := by
    intro h
    rw [split_head, getline_fst] at h
    exact hPOST (firstToken_of_takeWhile _ _ h (by decide) (by decide))
  refine ⟨⟨Request.writeError { r with request := (getline r.request).2 } Request.wrongTypeMsg,
    ?_, rfl, rfl, rfl⟩, by decide, by decide, ?_, ?_⟩
  · unfold Request.afterRead
    simp only []
    rw [if_pos ⟨h1, h2⟩]
  · exact ⟨"Wrong request type!\r\nSupported requests: POST, ".toList, [], by decide⟩
  · exact ⟨"Wrong request type!\r\nSupported requests: ".toList, ", GET".toList, by decide⟩

/-- C5 (witness): a `PUT` request gets the wrong-request-type response. -/
theorem afterRead_wrong_method_witness :
    (∃ r1 : Request, Request.afterRead Externals.sample 0 0
        (received "PUT / HTTP/1.1\r\n\r\nfactorial 5".toList) 0 30 = some r1 ∧
      r1.response = (received "PUT / HTTP/1.1\r\n\r\nfactorial 5".toList).response
        ++ errorText Request.wrongTypeMsg ∧
      r1.writes = (received "PUT / HTTP/1.1\r\n\r\nfactorial 5".toList).writes + 1 ∧
      r1.evaluated = (received "PUT / HTTP/1.1\r\n\r\nfactorial 5".toList).evaluated) ∧
    (errorText Request.wrongTypeMsg).take 24 = "HTTP/1.0 400 Bad Request".toList ∧
    afterBlankLine (errorText Request.wrongTypeMsg)
      = some (Request.wrongTypeMsg ++ "\r\n".toList) ∧
    "GET".toList <:+: Request.wrongTypeMsg ∧ "POST".toList <:+: Request.wrongTypeMsg :=
  afterRead_wrong_method Externals.sample 0 0 (received "PUT / HTTP/1.1\r\n\r\nfactorial 5".toList)
    0 30 (by decide) (by decide)

/-! ## The response format -/

theorem digitChar_value : ∀ k : Fin 10, (Nat.digitChar k).toNat - 48 = (k : Nat) ∧
    Nat.digitChar k ≠ '\r' := by
  decide

theorem toDigitsCore_value (fuel : Nat) : ∀ (n : Nat) (ds : List Char), n < fuel →
    (Nat.toDigitsCore 10 fuel n ds).foldl (fun a c => 10 * a + (c.toNat - 48)) 0
      = ds.foldl (fun a c => 10 * a + (c.toNat - 48)) n := by
  induction fuel with
  | zero => intro n ds h; omega
  | succ fuel ih =>
    intro n ds h
    have hd := (digitChar_value ⟨n % 10, Nat.mod_lt _ (by decide)⟩).1
    simp only [] at hd
    unfold Nat.toDigitsCore
    simp only []
    split
    · rename_i h0
      simp only [List.foldl_cons, hd]
      congr 1
      omega
    · rename_i h0
      rw [ih _ _ (by omega)]
      simp only [List.foldl_cons, hd]
      congr 1
      omega

theorem decimalValue_decimal (n : Nat) : decimalValue (decimal n) = n := by
  unfold decimalValue decimal Nat.toDigits
  rw [toDigitsCore_value _ _ _ (Nat.lt_succ_self n)]
  rfl

theorem toDigitsCore_ne_cr (fuel : Nat) : ∀ (n : Nat) (ds : List Char),
    (∀ c ∈ ds, c ≠ '\r') → ∀ c ∈ Nat.toDigitsCore 10 fuel n ds, c ≠ '\r' := by
  induction fuel with
  | zero => intro n ds h; simpa [Nat.toDigitsCore] using h
  | succ fuel ih =>
    intro n ds h
    have hd := (digitChar_value ⟨n % 10, Nat.mod_lt _ (by decide)⟩).2
    simp only [] at hd
    have hds : ∀ c ∈ Nat.digitChar (n % 10) :: ds, c ≠ '\r' := by
      intro c hc
      rcases List.mem_cons.mp hc with rfl | hc
      · exact hd
      · exact h c hc
    unfold Nat.toDigitsCore
    simp only []
    split
    · exact hds
    · exact ih _ _ hds

theorem decimal_ne_cr (n : Nat) : ∀ c ∈ decimal n, c ≠ '\r' :=
  toDigitsCore_ne_cr _ _ _ (by simp)

theorem afterBlankLine_skip (ds rest : List Char) (h : ∀ c ∈ ds, c ≠ '\r') :
    afterBlankLine (ds ++ rest) = afterBlankLine rest := by
  induction ds with
  | nil => rfl
  | cons d ds ih =>
    have hd : d ≠ '\r' := h d (List.mem_cons_self _ _)
    have hp : "\r\n\r\n".toList.isPrefixOf (d :: (ds ++ rest)) = false := by
      have : ('\r' == d) = false := by simpa using fun h => hd h.symm
      simp [String.toList, List.isPrefixOf, this]
    rw [List.cons_append, afterBlankLine, hp]
    exact ih (fun c hc => h c (List.mem_cons_of_mem _ hc))

theorem afterBlankLine_answerText (n : Nat) (rest : List Char) :
    afterBlankLine ("HTTP/1.0 200 OK\r\nContent-Type: text/html; charset=UTF-8\r\nContent-Length: ".toList
      ++ (decimal n ++ ("\r\n\r\n".toList ++ rest))) = some rest := by
  have h1 : afterBlankLine ("HTTP/1.0 200 OK\r\nContent-Type: text/html; charset=UTF-8\r\nContent-Length: ".toList
      ++ (decimal n ++ ("\r\n\r\n".toList ++ rest)))
      = afterBlankLine (decimal n ++ ("\r\n\r\n".toList ++ rest)) := rfl
  rw [h1, afterBlankLine_skip _ _ (decimal_ne_cr n)]
  simp [afterBlankLine, String.toList, List.isPrefixOf]

theorem afterBlankLine_errorText (n : Nat) (rest : List Char) :
    afterBlankLine ("HTTP/1.0 400 Bad Request\r\nContent-Type: text/html; charset=UTF-8\r\nContent-Length: ".toList
      ++ (decimal n ++ ("\r\n\r\n".toList ++ rest))) = some rest := by
  have h1 : afterBlankLine ("HTTP/1.0 400 Bad Request\r\nContent-Type: text/html; charset=UTF-8\r\nContent-Length: ".toList
      ++ (decimal n ++ ("\r\n\r\n".toList ++ rest)))
      = afterBlankLine (decimal n ++ ("\r\n\r\n".toList ++ rest)) := rfl
  rw [h1, afterBlankLine_skip _ _ (decimal_ne_cr n)]
  simp [afterBlankLine, String.toList, List.isPrefixOf]

/-- C6: for every body `b` (shorter than `2^64 - 2` bytes, as every `std::string` is)
`writeAnswer` formats exactly the status line `HTTP/1.0 200 OK`, the content type, the
header `Content-Length: <len(b)+2>`, a blank line, `b` and `\r\n`, and `writeError` the
same under `HTTP/1.0 400 Bad Request`; the digits of the header denote `len(b) + 2`, and
that is the number of bytes after the first blank line of the response. -/
theorem response_format (b : List Char) (hb : b.length + 2 < 2 ^ 64) :
    answerText b
      = "HTTP/1.0 200 OK\r\nContent-Type: text/html; charset=UTF-8\r\nContent-Length: ".toList
        ++ (decimal (b.length + 2) ++ ("\r\n\r\n".toList ++ (b ++ "\r\n".toList))) ∧
    errorText b
      = "HTTP/1.0 400 Bad Request\r\nContent-Type: text/html; charset=UTF-8\r\nContent-Length: ".toList
        ++ (decimal (b.length + 2) ++ ("\r\n\r\n".toList ++ (b ++ "\r\n".toList))) ∧
    decimalValue (decimal (b.length + 2)) = b.length + 2 ∧
    afterBlankLine (answerText b) = some (b ++ "\r\n".toList) ∧
    afterBlankLine (errorText b) = some (b ++ "\r\n".toList) ∧
    (b ++ "\r\n".toList).length = b.length + 2 ∧
    (∀ r : Request, (r.writeAnswer b).response = r.response ++ answerText b ∧
      (r.writeError b).response = r.response ++ errorText b) := by
  have ha : answerText b
      = "HTTP/1.0 200 OK\r\nContent-Type: text/html; charset=UTF-8\r\nContent-Length: ".toList
        ++ (decimal (b.length + 2) ++ ("\r\n\r\n".toList ++ (b ++ "\r\n".toList))) := by
    unfold answerText
    rw [Nat.mod_eq_of_lt hb]
    simp only [List.append_assoc]
    rfl
  have he : errorText b
      = "HTTP/1.0 400 Bad Request\r\nContent-Type: text/html; charset=UTF-8\r\nContent-Length: ".toList
        ++ (decimal (b.length + 2) ++ ("\r\n\r\n".toList ++ (b ++ "\r\n".toList))) := by
    unfold errorText
    rw [Nat.mod_eq_of_lt hb]
    simp only [List.append_assoc]
    rfl
  refine ⟨ha, he, decimalValue_decimal _, ?_, ?_, ?_, fun r => ⟨rfl, rfl⟩⟩
  · rw [ha, afterBlankLine_answerText]
  · rw [he, afterBlankLine_errorText]
  · simp

/-- C6 (witness): the two responses with the body `120`. -/
theorem response_format_witness :
    answerText "120".toList
      = "HTTP/1.0 200 OK\r\nContent-Type: text/html; charset=UTF-8\r\nContent-Length: ".toList
        ++ (decimal ("120".toList.length + 2) ++ ("\r\n\r\n".toList ++ ("120".toList ++ "\r\n".toList))) ∧
    errorText "120".toList
      = "HTTP/1.0 400 Bad Request\r\nContent-Type: text/html; charset=UTF-8\r\nContent-Length: ".toList
        ++ (decimal ("120".toList.length + 2) ++ ("\r\n\r\n".toList ++ ("120".toList ++ "\r\n".toList))) ∧
    decimalValue (decimal ("120".toList.length + 2)) = "120".toList.length + 2 ∧
    afterBlankLine (answerText "120".toList) = some ("120".toList ++ "\r\n".toList) ∧
    afterBlankLine (errorText "120".toList) = some ("120".toList ++ "\r\n".toList) ∧
    ("120".toList ++ "\r\n".toList).length = "120".toList.length + 2 ∧
    (∀ r : Request, (r.writeAnswer "120".toList).response = r.response ++ answerText "120".toList ∧
      (r.writeError "120".toList).response = r.response ++ errorText "120".toList) :=
  response_format "120".toList (by decide)

/-! ## Requests on the wire -/

theorem getline_append (l rest : List Char) (h : '\n' ∉ l) :
    getline (l ++ '\n' :: rest) = (l, rest) := by
  induction l with
  | nil => simp [getline]
  | cons c cs ih =>
    have hc : c ≠ '\n' := fun e => h (e ▸ List.mem_cons_self _ _)
    have ih2 := ih (fun hm => h (List.mem_cons_of_mem _ hm))
    simp [getline, hc, ih2]

theorem takeWhile_append_sep (sep : Char) (l rest : List Char) (h : sep ∉ l) :
    (l ++ sep :: rest).takeWhile (fun c => c != sep) = l := by
  induction l with
  | nil => simp
  | cons c cs ih =>
    have hc : c ≠ sep := fun e => h (e ▸ List.mem_cons_self _ _)
    have ih2 := ih (fun hm => h (List.mem_cons_of_mem _ hm))
    simp [hc, ih2]

theorem headerLoop_headers (body : List Char) (hs : List (List Char))
    (hok : ∀ h ∈ hs, headerOk h) : ∀ fuel : Nat, hs.length < fuel →
    headerLoop fuel ((hs.map (fun h => h ++ "\r\n".toList)).flatten ++ "\r\n".toList ++ body)
      = body := by
  induction hs with
  | nil =>
    intro fuel hf
    obtain ⟨f, rfl⟩ : ∃ f, fuel = f + 1 := ⟨fuel - 1, by simp at hf; omega⟩
    simp [headerLoop, getline, String.toList]
  | cons h hs ih =>
    intro fuel hf
    obtain ⟨f, rfl⟩ : ∃ f, fuel = f + 1 := ⟨fuel - 1, by omega⟩
    obtain ⟨hne, hnl⟩ := hok h (List.mem_cons_self _ _)
    have hnl2 : '\n' ∉ h ++ ['\r'] := by
      simp only [List.mem_append, List.mem_singleton, not_or]
      exact ⟨hnl, by decide⟩
    have hg := getline_append (h ++ ['\r'])
      ((hs.map (fun h => h ++ "\r\n".toList)).flatten ++ "\r\n".toList ++ body) hnl2
    have heq : ((h :: hs).map (fun h => h ++ "\r\n".toList)).flatten ++ "\r\n".toList ++ body
        = (h ++ ['\r']) ++ '\n' ::
          ((hs.map (fun h => h ++ "\r\n".toList)).flatten ++ "\r\n".toList ++ body) := by
      simp [String.toList]
    rw [heq, headerLoop, hg]
    have h1 : h ++ ['\r'] ++ '\n' ::
        ((hs.map (fun h => h ++ "\r\n".toList)).flatten ++ "\r\n".toList ++ body) ≠ [] := by
      simp
    have h2 : ¬ (h ++ ['\r'] = [] ∨ h ++ ['\r'] = ['\r']) := by
      intro hc
      rcases hc with hc | hc
      · simp at hc
      · have := congrArg List.length hc
        simp at this
        exact hne this
    simp only [h1, h2, if_false]
    exact ih (fun x hx => hok x (List.mem_cons_of_mem _ hx)) f (by simp at hf; omega)

theorem length_headers_lt (body : List Char) (hs : List (List Char)) :
    hs.length < ((hs.map (fun h => h ++ "\r\n".toList)).flatten ++ "\r\n".toList ++ body).length := by
  induction hs with
  | nil => simp [String.toList]
  | cons h hs ih =>
    simp [String.toList] at ih ⊢
    omega

theorem getline_mkRequest (m t : List Char) (hs : List (List Char)) (body : List Char)
    (hm : '\n' ∉ m) (ht : '\n' ∉ t) :
    getline (mkRequest m t hs body)
      = (m ++ ' ' :: t ++ ['\r'],
          (hs.map (fun h => h ++ "\r\n".toList)).flatten ++ "\r\n".toList ++ body) := by
  have hnl : '\n' ∉ m ++ ' ' :: t ++ ['\r'] := by
    simp only [List.mem_append, List.mem_cons, List.mem_singleton, not_or, List.not_mem_nil,
      or_false]
    exact ⟨⟨hm, by decide, ht⟩, by decide⟩
  have heq : mkRequest m t hs body = (m ++ ' ' :: t ++ ['\r']) ++ '\n' ::
      ((hs.map (fun h => h ++ "\r\n".toList)).flatten ++ "\r\n".toList ++ body) := by
    simp [mkRequest, String.toList]
  rw [heq, getline_append _ _ hnl]

theorem method_mkRequest (m t : List Char) (hm : ' ' ∉ m) :
    (split ' ' (m ++ ' ' :: t ++ ['\r'])).headD [] = m := by
  rw [split_head]
  have : m ++ ' ' :: t ++ ['\r'] = m ++ ' ' :: (t ++ ['\r']) := by simp
  rw [this, takeWhile_append_sep _ _ _ hm]

/-- What `afterRead` does with a `GET` or `POST` request on the wire: the method check
passes, the header loop leaves the body, and the body alone decides the response. -/
theorem afterRead_mkRequest (env : Externals) (g : Int) (fuel : Nat) (m t : List Char)
    (hs : List (List Char)) (body : List Char) (ec n : Nat)
    (hm : m = "GET".toList ∨ m = "POST".toList) (ht : '\n' ∉ t)
    (hok : ∀ h ∈ hs, headerOk h) :
    Request.afterRead env g fuel (received (mkRequest m t hs body)) ec n
      = Request.afterRead env g fuel (received ("GET \r\n\r\n".toList ++ body)) ec n := by
  have hm1 : '\n' ∉ m := by rcases hm with rfl | rfl <;> decide
  have hm2 : ' ' ∉ m := by rcases hm with rfl | rfl <;> decide
  have hA : ¬ (m ≠ "GET".toList ∧ m ≠ "POST".toList) := by
    rcases hm with rfl | rfl <;> decide
  have hg0 : getline ("GET \r\n\r\n".toList ++ body) = ("GET \r".toList, "\r\n".toList ++ body) := by
    simp [getline, String.toList]
  have hl0 : headerLoop ("\r\n".toList ++ body).length ("\r\n".toList ++ body) = body := by
    have := headerLoop_headers body [] (by simp) ("\r\n".toList ++ body).length
      (by simp [String.toList])
    simpa using this
  have hB : ¬ ((split ' ' "GET \r".toList).headD [] ≠ "GET".toList ∧
      (split ' ' "GET \r".toList).headD [] ≠ "POST".toList) := by decide
  unfold Request.afterRead
  simp only [received, getline_mkRequest m t hs body hm1 ht, method_mkRequest m t hm2,
    hg0, if_neg hA, if_neg hB, hl0,
    headerLoop_headers body hs hok _ (length_headers_lt body hs)]

/-! ## The argument check -/

theorem findFrom_not_mem (c : Char) (s : List Char) (i : Nat) (h : c ∉ s) :
    findFrom c s i = npos := by
  induction s generalizing i with
  | nil => rfl
  | cons d ds ih =>
    have hd : d ≠ c := fun e => h (e ▸ List.mem_cons_self _ _)
    simp only [findFrom, if_neg hd]
    exact ih _ (fun hm => h (List.mem_cons_of_mem _ hm))

theorem split_ne_nil (sep : Char) (s : List Char) : split sep s ≠ [] := by
  cases s with
  | nil => simp [split]
  | cons c cs =>
    unfold split
    split <;> simp

theorem answerText_ne_errorText (a e : List Char) : answerText a ≠ errorText e := by
  intro h
  have h1 : (answerText a).take 10 = "HTTP/1.0 2".toList := by
    unfold answerText
    simp only [List.append_assoc]
    rfl
  have h2 : (errorText e).take 10 = "HTTP/1.0 4".toList := by
    unfold errorText
    simp only [List.append_assoc]
    rfl
  rw [h, h2] at h1
  exact absurd h1 (by decide)

/-- The body of a `GET` or `POST` request that holds no space: the whole body is the
operation name and, split at its commas, the parameter list as well; the argument check
passes and `calculateAnswer` is called. -/
theorem afterRead_no_space (env : Externals) (g : Int) (fuel : Nat) (m t : List Char)
    (hs : List (List Char)) (body : List Char) (ec n : Nat)
    (hm : m = "GET".toList ∨ m = "POST".toList) (ht : '\n' ∉ t)
    (hok : ∀ h ∈ hs, headerOk h) (hb : body ≠ []) (hsp : ' ' ∉ body)
    (hlen : body.length < 2 ^ 64) (r1 : Request)
    (h : Request.afterRead env g fuel (received (mkRequest m t hs body)) ec n = some r1) :
    r1.evaluated = [(body, (split ',' body).map (fun s => env.atof (c_str s)))] ∧
      r1.response ≠ errorText Request.notEnoughMsg := by
  rw [afterRead_mkRequest env g fuel m t hs body ec n hm ht hok] at h
  have hg0 : getline ("GET \r\n\r\n".toList ++ body) = ("GET \r".toList, "\r\n".toList ++ body) := by
    simp [getline, String.toList]
  have hl0 : headerLoop ("\r\n".toList ++ body).length ("\r\n".toList ++ body) = body := by
    have := headerLoop_headers body [] (by simp) ("\r\n".toList ++ body).length
      (by simp [String.toList])
    simpa using this
  have hB : ¬ ((split ' ' "GET \r".toList).headD [] ≠ "GET".toList ∧
      (split ' ' "GET \r".toList).headD [] ≠ "POST".toList) := by decide
  have hf : find_first_of body ' ' = npos := findFrom_not_mem _ _ _ hsp
  have hn : (npos + 1) % 2 ^ 64 = 0 := by decide
  have hsub : substr body 0 npos = body := by
    unfold substr
    rw [List.drop_zero, List.take_of_length_le]
    unfold npos
    omega
  have hC : ¬ (split ',' body = [] ∨ body = []) := by
    intro hc
    rcases hc with hc | hc
    · exact split_ne_nil _ _ hc
    · exact hb hc
  unfold Request.afterRead at h
  simp only [received, hg0, if_neg hB, hl0, hf, hn, hsub, if_neg hC] at h
  cases hres : calculateAnswer env fuel body
      ((split ',' body).map (fun s => env.atof (c_str s))) with
  | none => simp [hres] at h
  | some res =>
    simp only [hres] at h
    by_cases hfail : res = EvalResult.failure
    · simp only [hfail, if_true, Option.some.injEq] at h
      subst h
      refine ⟨by simp [Request.writeError], ?_⟩
      simp only [Request.writeError, List.nil_append]
      decide
    · simp only [hfail, if_false, Option.some.injEq] at h
      subst h
      refine ⟨by simp [Request.writeAnswer], ?_⟩
      simp only [Request.writeAnswer, List.nil_append]
      exact answerText_ne_errorText _ _

/-- C4 (the code at the failing input): the request `GET / HTTP/1.1` with the body
`factorial` is answered with `200 OK` and the body `1`, after `calculateAnswer` was called
with the operation `factorial` and the one parameter `atof("factorial") = 0`; the response
is not the not-enough-arguments response. -/
theorem afterRead_body_factorial :
    (Request.afterRead Externals.sample 0 1
        (received (mkRequest "GET".toList "/ HTTP/1.1".toList [] "factorial".toList)) 0 0).map
        (fun r1 => (r1.response, r1.evaluated))
      = some (answerText "1".toList, [("factorial".toList, [Dbl.ofInt 0])]) ∧
    answerText "1".toList ≠ errorText Request.notEnoughMsg := by
  decide

/-- C7 (the code at the failing input): `afterRead` never looks at the error code of the
read; after a read that failed (`ec = 2`) with nothing in the buffer it formats the
wrong-request-type response and starts a write. -/
theorem afterRead_ignores_ec :
    (∀ (env : Externals) (g : Int) (fuel : Nat) (r : Request) (ec n : Nat),
      Request.afterRead env g fuel r ec n = Request.afterRead env g fuel r 0 n) ∧
    (Request.afterRead Externals.sample 0 0 (received []) 2 0).map
        (fun r1 => (r1.response, r1.writes))
      = some (errorText Request.wrongTypeMsg, 1) := by
  exact ⟨fun _ _ _ _ _ _ => rfl, by decide⟩

/-! ## Evaluation failures -/

/-- The six operation names that take one parameter. -/
theorem unary_names_ne (op : List Char)
    (h : op = opName "factorial" ∨ op = opName "fibonacci" ∨ op = opName "cos" ∨
      op = opName "sin" ∨ op = opName "tan" ∨ op = opName "sqrt") :
    op ≠ opName "pow" ∧ op ≠ opName "abs" := by
  rcases h with rfl | rfl | rfl | rfl | rfl | rfl <;> decide

/-- C9: `calculateAnswer` fails, whatever the fuel, when the name is none of the eight
operation names, when it is one of `factorial`, `fibonacci`, `cos`, `sin`, `tan`, `sqrt`
and the parameter count is not 1, and when it is `pow` and the parameter count is not 2;
and whenever a call of `calculateAnswer` that `afterRead` makes fails, `afterRead`
answers with one 400 response whose body is `Wrong parameters`. -/
theorem calculateAnswer_failure (env : Externals) (g : Int) (fuel : Nat) :
    (∀ (op : List Char) (ps : List Dbl),
      (op ≠ opName "factorial" ∧ op ≠ opName "fibonacci" ∧ op ≠ opName "cos" ∧
          op ≠ opName "sin" ∧ op ≠ opName "tan" ∧ op ≠ opName "sqrt" ∧
          op ≠ opName "pow" ∧ op ≠ opName "abs") ∨
        ((op = opName "factorial" ∨ op = opName "fibonacci" ∨ op = opName "cos" ∨
          op = opName "sin" ∨ op = opName "tan" ∨ op = opName "sqrt") ∧ ps.length ≠ 1) ∨
        (op = opName "pow" ∧ ps.length ≠ 2) →
      calculateAnswer env fuel op ps = some EvalResult.failure) ∧
    (∀ (r : Request) (ec n : Nat) (op : List Char) (ps : List Dbl),
      (Request.afterRead env g fuel r ec n).map (fun r1 => r1.evaluated)
          = some (r.evaluated ++ [(op, ps)]) →
      calculateAnswer env fuel op ps = some EvalResult.failure →
      ∃ r1 : Request, Request.afterRead env g fuel r ec n = some r1 ∧
        r1.response = r.response ++ errorText Request.wrongParamsMsg ∧
        r1.writes = r.writes + 1) ∧
    (errorText Request.wrongParamsMsg).take 24 = "HTTP/1.0 400 Bad Request".toList ∧
    afterBlankLine (errorText Request.wrongParamsMsg)
      = some ("Wrong parameters".toList ++ "\r\n".toList) := by
  refine ⟨?_, ?_, by decide, by decide⟩
  · intro op ps h
    rcases h with ⟨h1, h2, h3, h4, h5, h6, h7, h8⟩ | ⟨hop, hlen⟩ | ⟨hop, hlen⟩
    · simp [calculateAnswer, h1, h2, h3, h4, h5, h6, h7, h8]
    · obtain ⟨hp, ha⟩ := unary_names_ne op hop
      simp [calculateAnswer, hlen, hp, ha]
    · subst hop
      have hne : opName "pow" ≠ opName "factorial" ∧ opName "pow" ≠ opName "fibonacci" ∧
          opName "pow" ≠ opName "cos" ∧ opName "pow" ≠ opName "sin" ∧
          opName "pow" ≠ opName "tan" ∧ opName "pow" ≠ opName "sqrt" ∧
          opName "pow" ≠ opName "abs" := by decide
      obtain ⟨h1, h2, h3, h4, h5, h6, h7⟩ := hne
      simp [calculateAnswer, hlen, h1, h2, h3, h4, h5, h6, h7]
  · intro r ec n op ps hev hfail
    unfold Request.afterRead at hev ⊢
    simp only [] at hev ⊢
    split at hev
    · simp [Request.writeError] at hev
    · split at hev
      · simp [Request.writeError] at hev
      · rename_i hA hB
        rw [if_neg hA, if_neg hB]
        split at hev
        · simp at hev
        · rename_i res hres
          by_cases hf : res = EvalResult.failure
          · rw [if_pos hf]
            exact ⟨_, rfl, rfl, rfl⟩
          · rw [if_neg hf] at hev
            simp only [Request.writeAnswer, Option.map_some', Option.some.injEq,
              List.append_cancel_left_eq, List.cons.injEq, Prod.mk.injEq, and_true] at hev
            rw [hev.1, hev.2] at hres
            rw [hres] at hfail
            exact absurd (Option.some.inj hfail) hf

/-- C9 (witness): the request body `foo 1,2` names no operation; its evaluation fails
and the response is `400 Bad Request` with `Wrong parameters`. -/
theorem calculateAnswer_failure_witness :
    calculateAnswer Externals.sample 0 "foo".toList [Dbl.ofInt 1, Dbl.ofInt 2]
        = some EvalResult.failure ∧
      ∃ r1 : Request, Request.afterRead Externals.sample 0 0
          (received (mkRequest "GET".toList "/ HTTP/1.1".toList [] "foo 1,2".toList)) 0 0 = some r1 ∧
        r1.response = (received (mkRequest "GET".toList "/ HTTP/1.1".toList [] "foo 1,2".toList)).response
          ++ errorText Request.wrongParamsMsg ∧
        r1.writes = (received (mkRequest "GET".toList "/ HTTP/1.1".toList [] "foo 1,2".toList)).writes + 1 :=
  ⟨(calculateAnswer_failure Externals.sample 0 0).1 "foo".toList [Dbl.ofInt 1, Dbl.ofInt 2]
      (Or.inl (by decide)),
    (calculateAnswer_failure Externals.sample 0 0).2.1
      (received (mkRequest "GET".toList "/ HTTP/1.1".toList [] "foo 1,2".toList)) 0 0
      "foo".toList [Dbl.ofInt 1, Dbl.ofInt 2] (by decide) (by decide)⟩

/-! ## Adequacy of the stream model -/

theorem getline_snd_length (s : List Char) (h : s ≠ []) : (getline s).2.length < s.length := by
  induction s with
  | nil => exact absurd rfl h
  | cons c cs ih =>
    by_cases hc : c = '\n'
    · simp [getline, hc]
    · by_cases hcs : cs = []
      · simp [getline, hc, hcs]
      · have := ih hcs
        simp only [getline, if_neg hc, List.length_cons]
        omega

/-- The header loop never runs out of fuel: any fuel from the length of the stream on
gives the same result. -/
theorem headerLoop_fuel (f : Nat) : ∀ (g : Nat) (is : List Char), is.length ≤ f →
    is.length ≤ g → headerLoop f is = headerLoop g is := by
  induction f with
  | zero =>
    intro g is hf _
    have his : is = [] := List.length_eq_zero.mp (Nat.le_zero.mp hf)
    subst his
    cases g <;> simp [headerLoop]
  | succ f ih =>
    intro g is hf hg
    cases g with
    | zero =>
      have his : is = [] := List.length_eq_zero.mp (Nat.le_zero.mp hg)
      subst his
      simp [headerLoop]
    | succ g =>
      by_cases his : is = []
      · simp [headerLoop, his]
      · have hlen := getline_snd_length is his
        simp only [headerLoop, if_neg his]
        split
        · rfl
        · exact ih g _ (by omega) (by omega)

theorem findFrom_range (c : Char) (s : List Char) (i : Nat) :
    findFrom c s i = npos ∨ (i ≤ findFrom c s i ∧ findFrom c s i < i + s.length) := by
  induction s generalizing i with
  | nil => exact Or.inl rfl
  | cons d ds ih =>
    by_cases hd : d = c
    · right
      simp [findFrom, hd]
    · rcases ih (i + 1) with h | h
      · left
        simpa [findFrom, hd] using h
      · right
        simp only [findFrom, if_neg hd, List.length_cons]
        omega

/-- Both calls of `substr` in `afterRead` have their position inside the string, so
neither throws `std::out_of_range`. -/
theorem substr_position (s : List Char) (h : s.length < 2 ^ 64) :
    0 ≤ s.length ∧ (find_first_of s ' ' + 1) % 2 ^ 64 ≤ s.length := by
  refine ⟨Nat.zero_le _, ?_⟩
  rcases findFrom_range ' ' s 0 with h1 | h1
  · unfold find_first_of
    rw [h1]
    have : (npos + 1) % 2 ^ 64 = 0 := by decide
    omega
  · unfold find_first_of
    have h2 : findFrom ' ' s 0 + 1 < 2 ^ 64 := by omega
    rw [Nat.mod_eq_of_lt h2]
    omega

/-! ## Conversion of integers -/

theorem bitLenAux_spec (f : Nat) : ∀ n : Nat, 0 < n → n ≤ f →
    1 ≤ bitLenAux f n ∧ 2 ^ (bitLenAux f n - 1) ≤ n ∧ n < 2 ^ bitLenAux f n := by
  induction f with
  | zero => intro n h0 hf; omega
  | succ f ih =>
    intro n h0 hf
    have hn : n ≠ 0 := by omega
    simp only [bitLenAux, if_neg hn]
    by_cases h2 : n / 2 = 0
    · have h1 : n = 1 := by omega
      subst h1
      cases f <;> simp [bitLenAux]
    · obtain ⟨a, b, c⟩ := ih (n / 2) (by omega) (by omega)
      refine ⟨by omega, ?_, ?_⟩
      · have e1 : bitLenAux f (n / 2) + 1 - 1 = (bitLenAux f (n / 2) - 1) + 1 := by omega
        rw [e1, pow_succ]
        omega
      · rw [pow_succ]
        omega

theorem bitLen_spec (n : Nat) (h : 0 < n) :
    1 ≤ bitLen n ∧ 2 ^ (bitLen n - 1) ≤ n ∧ n < 2 ^ bitLen n :=
  bitLenAux_spec n n h (Nat.le_refl n)

theorem bitLen_le (n k : Nat) (h : 0 < n) (hk : n < 2 ^ k) : bitLen n ≤ k := by
  obtain ⟨a, b, _⟩ := bitLen_spec n h
  by_contra hc
  have : 2 ^ k ≤ 2 ^ (bitLen n - 1) := Nat.pow_le_pow_right (by decide) (by omega)
  omega

theorem Dbl.scale_natCast (N D k : Nat) : Dbl.scale N D ((k : Nat) : Int) = (N * 2 ^ k, D) := by
  unfold Dbl.scale
  rw [if_pos (Int.natCast_nonneg k), Int.toNat_natCast]

/-- Rounding keeps a natural number below `2^53`: the result is `N`, written with a
53-bit significand. -/
theorem Dbl.round_nat (neg : Bool) (N : Nat) (h0 : 0 < N) (h : N < 2 ^ 53) :
    Dbl.round neg N 1 0 = Dbl.fin neg (N * 2 ^ (53 - bitLen N)) ((bitLen N : Int) - 53) := by
  obtain ⟨hb1, hlo, hhi⟩ := bitLen_spec N h0
  have hb : bitLen N ≤ 53 := bitLen_le N 53 h0 h
  have hone : bitLen 1 = 1 := by decide
  have hN : N ≠ 0 := by omega
  obtain ⟨d, hd⟩ : ∃ d, 53 = bitLen N + d := ⟨53 - bitLen N, by omega⟩
  have hd' : 53 - bitLen N = d := by omega
  have hm_lt : N * 2 ^ d < 2 ^ 53 := by
    have : N * 2 ^ d < 2 ^ bitLen N * 2 ^ d := Nat.mul_lt_mul_of_pos_right hhi (by positivity)
    rwa [← pow_add, ← hd] at this
  have hm_ge : 2 ^ 53 ≤ N * 2 ^ (d + 1) := by
    have : 2 ^ (bitLen N - 1) * 2 ^ (d + 1) ≤ N * 2 ^ (d + 1) := Nat.mul_le_mul_right _ hlo
    rw [← pow_add] at this
    have e : bitLen N - 1 + (d + 1) = 53 := by omega
    rwa [e] at this
  have hm_pos : 0 < N * 2 ^ d := by positivity
  unfold Dbl.round
  simp only [if_neg hN, hone]
  have e0 : (0 : Int) - (0 + ((bitLen N : Int) - ((1 : Nat) : Int)) - 53) = ((d + 1 : Nat) : Int) := by
    push_cast
    omega
  have hs0 : Dbl.scale N 1 ((0 : Int) - (0 + ((bitLen N : Int) - ((1 : Nat) : Int)) - 53))
      = (N * 2 ^ (d + 1), 1) := by
    rw [e0, Dbl.scale_natCast]
  rw [hs0]
  have hnot : ¬ (N * 2 ^ (d + 1) / 1 < 2 ^ 53) := by
    rw [Nat.div_one]
    omega
  simp only [if_neg hnot]
  have et : max (0 + ((bitLen N : Int) - ((1 : Nat) : Int)) - 53 + 1) (-1074) = (bitLen N : Int) - 53 := by
    push_cast
    omega
  rw [et]
  have e1 : (0 : Int) - ((bitLen N : Int) - 53) = ((d : Nat) : Int) := by omega
  have hs1 : Dbl.scale N 1 ((0 : Int) - ((bitLen N : Int) - 53)) = (N * 2 ^ d, 1) := by
    rw [e1, Dbl.scale_natCast]
  rw [hs1]
  have hr : Dbl.roundHalfEven (N * 2 ^ d) 1 = N * 2 ^ d := by
    simp [Dbl.roundHalfEven, Nat.mod_one]
  simp only [hr]
  have h1 : N * 2 ^ d ≠ 0 := by omega
  have h2 : N * 2 ^ d ≠ 2 ^ 53 := by omega
  have h3 : ¬ ((971 : Int) < (bitLen N : Int) - 53) := by omega
  rw [if_neg h1, if_neg h2, if_neg h3, hd']

/-- The value of an integer below `2^53` in absolute value is kept by the conversion to
`double`. -/
theorem Dbl.ofInt_exact (i : Int) (h : i.natAbs < 2 ^ 53) :
    ∃ (m : Nat) (e : Int), Dbl.ofInt i = Dbl.fin (decide (i < 0)) m e ∧
      Dbl.val (decide (i < 0)) m e = (i : ℚ) := by
  by_cases h0 : i = 0
  · subst h0
    exact ⟨0, 0, rfl, by simp [Dbl.val]⟩
  · have hpos : 0 < i.natAbs := Int.natAbs_pos.mpr h0
    refine ⟨_, _, Dbl.round_nat _ _ hpos h, ?_⟩
    have hb : bitLen i.natAbs ≤ 53 := bitLen_le _ 53 hpos h
    have hz : ((2 : ℚ) ^ (53 - bitLen i.natAbs) : ℚ) * (2 : ℚ) ^ ((bitLen i.natAbs : Int) - 53) = 1 := by
      rw [← zpow_natCast, ← zpow_add₀ (by norm_num)]
      have : ((53 - bitLen i.natAbs : Nat) : Int) + ((bitLen i.natAbs : Int) - 53) = 0 := by omega
      rw [this, zpow_zero]
    have habs : ((i.natAbs : Nat) : ℚ) = |(i : ℚ)| := by
      rw [Nat.cast_natAbs, Int.cast_abs]
    unfold Dbl.val
    push_cast
    rw [mul_assoc, mul_assoc, hz, mul_one, habs]
    by_cases hneg : i < 0
    · have : (i : ℚ) < 0 := by exact_mod_cast hneg
      simp [hneg, abs_of_neg this]
    · have : (0 : ℚ) ≤ (i : ℚ) := by exact_mod_cast (not_lt.mp hneg)
      simp [hneg, abs_of_nonneg this]

theorem Dbl.ofInt_le_fin (i : Int) (h : i.natAbs < 2 ^ 53) (s : Bool) (m : Nat) (e : Int) :
    Dbl.le (Dbl.ofInt i) (Dbl.fin s m e) = true ↔ (i : ℚ) ≤ Dbl.val s m e := by
  obtain ⟨m1, e1, h1, h2⟩ := Dbl.ofInt_exact i h
  rw [h1, ← h2]
  simp only [Dbl.le, decide_eq_true_eq, Dbl.key_le_iff]

theorem Dbl.ofInt_lt_fin (i : Int) (h : i.natAbs < 2 ^ 53) (s : Bool) (m : Nat) (e : Int) :
    Dbl.lt (Dbl.ofInt i) (Dbl.fin s m e) = true ↔ (i : ℚ) < Dbl.val s m e := by
  obtain ⟨m1, e1, h1, h2⟩ := Dbl.ofInt_exact i h
  rw [h1, ← h2]
  simp only [Dbl.lt, decide_eq_true_eq, Dbl.key_lt_iff]

theorem wrap32_range (x : Int) : -2 ^ 31 ≤ wrap32 x ∧ wrap32 x < 2 ^ 31 := by
  unfold wrap32
  omega

theorem wrap32_of_range (x : Int) (h1 : -2 ^ 31 ≤ x) (h2 : x < 2 ^ 31) : wrap32 x = x := by
  unfold wrap32
  omega

/-- The factorial loop does not end when the parameter is finite and at least
`2^31 - 1`: no value of the 32-bit counter exceeds it. -/
theorem factorialLoop_none (s : Bool) (m : Nat) (e : Int)
    (hp : (2 ^ 31 - 1 : ℚ) ≤ Dbl.val s m e) :
    ∀ (fuel : Nat) (i : Int) (a : Dbl), -2 ^ 31 ≤ i → i < 2 ^ 31 →
      factorialLoop (Dbl.fin s m e) fuel i a = none := by
  intro fuel
  induction fuel with
  | zero => intro i a _ _; rfl
  | succ fuel ih =>
    intro i a h1 h2
    have hc : Dbl.le (Dbl.ofInt i) (Dbl.fin s m e) = true := by
      rw [Dbl.ofInt_le_fin i (by omega)]
      have : (i : ℚ) ≤ 2 ^ 31 - 1 := by
        have : i ≤ 2 ^ 31 - 1 := by omega
        exact_mod_cast this
      exact this.trans hp
    rw [factorialLoop, if_pos hc]
    exact ih _ _ (wrap32_range _).1 (wrap32_range _).2

/-- The fibonacci loop does not end when the parameter is finite and above `2^31 - 1`. -/
theorem fibonacciLoop_none (s : Bool) (m : Nat) (e : Int)
    (hp : (2 ^ 31 - 1 : ℚ) < Dbl.val s m e) :
    ∀ (fuel : Nat) (i n1 n2 : Int) (n3 : Option Int), -2 ^ 31 ≤ i → i < 2 ^ 31 →
      fibonacciLoop (Dbl.fin s m e) fuel i n1 n2 n3 = none := by
  intro fuel
  induction fuel with
  | zero => intro i n1 n2 n3 _ _; rfl
  | succ fuel ih =>
    intro i n1 n2 n3 h1 h2
    have hc : Dbl.lt (Dbl.ofInt i) (Dbl.fin s m e) = true := by
      rw [Dbl.ofInt_lt_fin i (by omega)]
      have : (i : ℚ) ≤ 2 ^ 31 - 1 := by
        have : i ≤ 2 ^ 31 - 1 := by omega
        exact_mod_cast this
      exact lt_of_le_of_lt this hp
    rw [fibonacciLoop, if_pos hc]
    exact ih _ _ _ _ (wrap32_range _).1 (wrap32_range _).2

/-! ## The method check -/

theorem errorText_ne :
    errorText Request.notEnoughMsg ≠ errorText Request.wrongTypeMsg ∧
    errorText Request.wrongParamsMsg ≠ errorText Request.wrongTypeMsg ∧
    errorText Request.wrongParamsMsg ≠ errorText Request.notEnoughMsg := by
  decide

/-- C11 (amended): the method check passes exactly when the bytes of the first line
before its first space are `GET` or `POST`: then the response, if any, is not the
wrong-request-type error, and otherwise it is that error.  A method that is followed
by a tab does not pass. -/
theorem afterRead_method_check (env : Externals) (g : Int) (fuel : Nat) (r : Request) (ec n : Nat) :
    ((firstLine r.request).takeWhile (fun c => c != ' ') = "GET".toList ∨
        (firstLine r.request).takeWhile (fun c => c != ' ') = "POST".toList →
      ∀ r1 : Request, Request.afterRead env g fuel r ec n = some r1 →
        r1.response ≠ r.response ++ errorText Request.wrongTypeMsg) ∧
    (¬ ((firstLine r.request).takeWhile (fun c => c != ' ') = "GET".toList ∨
        (firstLine r.request).takeWhile (fun c => c != ' ') = "POST".toList) →
      ∃ r1 : Request, Request.afterRead env g fuel r ec n = some r1 ∧
        r1.response = r.response ++ errorText Request.wrongTypeMsg) ∧
    (Request.afterRead env g fuel (received "GET\t/ HTTP/1.1\r\n\r\nfactorial 5".toList) ec n).map
        (fun r1 => r1.response) = some (errorText Request.wrongTypeMsg) := by
  have hm : (split ' ' (getline r.request).1).headD []
      = (firstLine r.request).takeWhile (fun c => c != ' ') := by
    rw [split_head, getline_fst]
  refine ⟨?_, ?_, by rfl⟩
  · intro h r1 hr
    have hA : ¬ ((split ' ' (getline r.request).1).headD [] ≠ "GET".toList ∧
        (split ' ' (getline r.request).1).headD [] ≠ "POST".toList) := by
      rw [hm]
      rcases h with h | h
      · exact fun hc => hc.1 h
      · exact fun hc => hc.2 h
    unfold Request.afterRead at hr
    simp only [] at hr
    rw [if_neg hA] at hr
    split at hr
    · simp only [Option.some.injEq] at hr
      subst hr
      simp only [Request.writeError, ne_eq, List.append_cancel_left_eq]
      exact errorText_ne.1
    · split at hr
      · exact absurd hr (by simp)
      · split at hr
        · simp only [Option.some.injEq] at hr
          subst hr
          simp only [Request.writeError, ne_eq, List.append_cancel_left_eq]
          exact errorText_ne.2.1
        · simp only [Option.some.injEq] at hr
          subst hr
          simp only [Request.writeAnswer, ne_eq, List.append_cancel_left_eq]
          exact answerText_ne_errorText _ _
  · intro h
    have hA : (split ' ' (getline r.request).1).headD [] ≠ "GET".toList ∧
        (split ' ' (getline r.request).1).headD [] ≠ "POST".toList := by
      rw [hm]
      exact ⟨fun hc => h (Or.inl hc), fun hc => h (Or.inr hc)⟩
    refine ⟨Request.writeError { r with request := (getline r.request).2 } Request.wrongTypeMsg,
      ?_, rfl⟩
    unfold Request.afterRead
    simp only []
    rw [if_pos hA]

/-- C11 (witness): `POST / HTTP/1.1` with the body `factorial 5` passes the method check. -/
theorem afterRead_method_check_witness :
    ∀ r1 : Request, Request.afterRead Externals.sample 0 9
        (received "POST / HTTP/1.1\r\n\r\nfactorial 5".toList) 0 0 = some r1 →
      r1.response ≠ (received "POST / HTTP/1.1\r\n\r\nfactorial 5".toList).response
        ++ errorText Request.wrongTypeMsg :=
  (afterRead_method_check Externals.sample 0 9
    (received "POST / HTTP/1.1\r\n\r\nfactorial 5".toList) 0 0).1 (Or.inr (by decide))

/-- C11 (counterexample): the first line `GET` alone, ended by `\r\n`, has the first
whitespace-delimited token `GET`, and the response is the wrong-request-type error:
the text before the first space of the line is `GET\r`. -/
theorem afterRead_method_alone :
    firstToken (firstLine "GET\r\n\r\nfactorial 5".toList) = "GET".toList ∧
    (Request.afterRead Externals.sample 0 9 (received "GET\r\n\r\nfactorial 5".toList) 0 0).map
        (fun r1 => r1.response) = some (errorText Request.wrongTypeMsg) ∧
    (split ' ' (getline "GET\r\n\r\nfactorial 5".toList).1).headD [] = "GET\r".toList := by
  decide

/-! ## Termination of the evaluation -/

/-- What decides the end of the evaluation: outside `factorial` and `fibonacci` with one
parameter no loop on fuel is entered and `calculateAnswer` returns with any fuel. -/
theorem calculateAnswer_total (env : Externals) (fuel : Nat) (op : List Char) (ps : List Dbl)
    (h : ¬ ((op = opName "factorial" ∨ op = opName "fibonacci") ∧ ps.length = 1)) :
    ∃ res : EvalResult, calculateAnswer env fuel op ps = some res := by
  have h1 : ¬ (op = opName "factorial" ∧ ps.length = 1) := fun hc => h ⟨Or.inl hc.1, hc.2⟩
  have h2 : ¬ (op = opName "fibonacci" ∧ ps.length = 1) := fun hc => h ⟨Or.inr hc.1, hc.2⟩
  unfold calculateAnswer
  simp only [if_neg h1, if_neg h2]
  repeat' split
  all_goals exact ⟨_, rfl⟩

theorem calculateAnswer_big (env : Externals) (fuel : Nat) :
    calculateAnswer env fuel (opName "factorial") [Dbl.ofInt 2147483648] = none ∧
    calculateAnswer env fuel (opName "fibonacci") [Dbl.ofInt 2147483648] = none := by
  have hof : Dbl.ofInt 2147483648 = Dbl.fin false 4503599627370496 (-21) := by decide
  have hv : (2 ^ 31 - 1 : ℚ) < Dbl.val false 4503599627370496 (-21) := by
    simp only [Dbl.val]
    norm_num
  have h0 : Dbl.lt (Dbl.fin false 4503599627370496 (-21)) (Dbl.ofInt 0) = false := by decide
  have h3 : Dbl.lt (Dbl.fin false 4503599627370496 (-21)) (Dbl.ofInt 3) = false := by decide
  have hne : opName "fibonacci" ≠ opName "factorial" := by decide
  refine ⟨?_, ?_⟩
  · rw [hof]
    simp [calculateAnswer, h0,
      factorialLoop_none false 4503599627370496 (-21) hv.le fuel 1 (Dbl.ofInt 1) (by norm_num)
        (by norm_num)]
  · rw [hof]
    simp [calculateAnswer, hne, h3,
      fibonacciLoop_none false 4503599627370496 (-21) hv fuel 2 0 1 none (by norm_num)
        (by norm_num)]

/-- C12 (the code at the failing input): with the finite parameter `2147483648 = 2^31`
neither `factorial` nor `fibonacci` returns, whatever the fuel: every value of the 32-bit
counter `i` satisfies `i <= 2147483648.0`, so the loop condition never fails. -/
theorem calculateAnswer_no_return (env : Externals) (fuel : Nat) :
    calculateAnswer env fuel (opName "factorial") [Dbl.ofInt 2147483648] = none ∧
    calculateAnswer env fuel (opName "fibonacci") [Dbl.ofInt 2147483648] = none ∧
    Dbl.toInt (Dbl.ofInt 2147483648) = some 2147483648 :=
  ⟨(calculateAnswer_big env fuel).1, (calculateAnswer_big env fuel).2, by decide⟩

/-! ## The body of a request -/

theorem findFrom_append (c : Char) (l rest : List Char) (i : Nat) (h : c ∉ l) :
    findFrom c (l ++ c :: rest) i = i + l.length := by
  induction l generalizing i with
  | nil => simp [findFrom]
  | cons d ds ih =>
    have hd : d ≠ c := fun e => h (e ▸ List.mem_cons_self _ _)
    have ih2 := ih (i + 1) (fun hm => h (List.mem_cons_of_mem _ hm))
    rw [List.cons_append, findFrom, if_neg hd, ih2, List.length_cons]
    omega

/-- What `afterRead` does with a body `op rest` (the operation name, a space, the
parameter text): it calls `calculateAnswer` with `op` and with the pieces of `rest`
between its commas, each converted by `atof`, and answers from the result alone. -/
theorem afterRead_op_rest (env : Externals) (g : Int) (fuel : Nat) (m t : List Char)
    (hs : List (List Char)) (op rest : List Char) (ec n : Nat)
    (hm : m = "GET".toList ∨ m = "POST".toList) (ht : '\n' ∉ t)
    (hok : ∀ h ∈ hs, headerOk h) (hop : op ≠ []) (hsp : ' ' ∉ op)
    (hlen : (op ++ ' ' :: rest).length < 2 ^ 64) :
    Request.afterRead env g fuel (received (mkRequest m t hs (op ++ ' ' :: rest))) ec n
      = (calculateAnswer env fuel op ((split ',' rest).map (fun s => env.atof (c_str s)))).map
          (fun res =>
            if res = EvalResult.failure then
              Request.writeError
                { received [] with
                  answer_ := Request.answerAfter g res,
                  evaluated := [(op, (split ',' rest).map (fun s => env.atof (c_str s)))] }
                Request.wrongParamsMsg
            else
              Request.writeAnswer
                { received [] with
                  answer_ := Request.answerAfter g res,
                  evaluated := [(op, (split ',' rest).map (fun s => env.atof (c_str s)))] }
                (env.lexical_cast (Request.answerAfter g res))) := by
  rw [afterRead_mkRequest env g fuel m t hs _ ec n hm ht hok]
  have hg0 : getline ("GET \r\n\r\n".toList ++ (op ++ ' ' :: rest))
      = ("GET \r".toList, "\r\n".toList ++ (op ++ ' ' :: rest)) := by
    simp [getline, String.toList]
  have hl0 : headerLoop ("\r\n".toList ++ (op ++ ' ' :: rest)).length
      ("\r\n".toList ++ (op ++ ' ' :: rest)) = op ++ ' ' :: rest := by
    have := headerLoop_headers (op ++ ' ' :: rest) [] (by simp)
      ("\r\n".toList ++ (op ++ ' ' :: rest)).length (by simp [String.toList])
    simpa using this
  have hB : ¬ ((split ' ' "GET \r".toList).headD [] ≠ "GET".toList ∧
      (split ' ' "GET \r".toList).headD [] ≠ "POST".toList) := by decide
  have hf : find_first_of (op ++ ' ' :: rest) ' ' = op.length := by
    unfold find_first_of
    rw [findFrom_append _ _ _ _ hsp, Nat.zero_add]
  have hl2 : op.length + 1 + rest.length < 2 ^ 64 := by
    simp only [List.length_append, List.length_cons] at hlen
    omega
  have hn : (op.length + 1) % 2 ^ 64 = op.length + 1 := Nat.mod_eq_of_lt (by omega)
  have hsub1 : substr (op ++ ' ' :: rest) 0 op.length = op := by
    unfold substr
    rw [List.drop_zero, List.take_left]
  have hsub2 : substr (op ++ ' ' :: rest) (op.length + 1) npos = rest := by
    unfold substr
    have hd : List.drop (op.length + 1) (op ++ ' ' :: rest) = rest := by
      have : op ++ ' ' :: rest = (op ++ [' ']) ++ rest := by simp
      rw [this]
      have hl : op.length + 1 = (op ++ [' ']).length := by simp
      rw [hl, List.drop_left]
    rw [hd, List.take_of_length_le]
    unfold npos
    omega
  have hC : ¬ (split ',' rest = [] ∨ op = []) := by
    intro hc
    rcases hc with hc | hc
    · exact split_ne_nil _ _ hc
    · exact hop hc
  unfold Request.afterRead
  simp only [received, hg0, if_neg hB, hl0, hf, hn, hsub1, hsub2, if_neg hC]
  cases calculateAnswer env fuel op ((split ',' rest).map (fun s => env.atof (c_str s))) with
  | none => rfl
  | some res =>
    by_cases hfail : res = EvalResult.failure
    · simp [hfail]
    · simp [hfail]

/-! ## One traversal -/

/-- Whenever `afterRead` returns it has formatted one response, a 400 or a 200, and
started one write, and `afterWrite` then closes the socket once, whatever its `ec`. -/
theorem afterRead_one_write (env : Externals) (g : Int) (fuel : Nat) (r : Request) (ec n : Nat)
    (r1 : Request) (h : Request.afterRead env g fuel r ec n = some r1) :
    r1.writes = r.writes + 1 ∧ r1.closes = r.closes ∧
      (∃ b : List Char, r1.response = r.response ++ errorText b ∨
        r1.response = r.response ++ answerText b) ∧
      ∀ ec2 n2 : Nat, (r1.afterWrite ec2 n2).closes = r.closes + 1 ∧
        (r1.afterWrite ec2 n2).writes = r.writes + 1 ∧
        (r1.afterWrite ec2 n2).response = r1.response := by
  unfold Request.afterRead at h
  simp only [] at h
  split at h
  · simp only [Option.some.injEq] at h
    subst h
    exact ⟨rfl, rfl, ⟨_, Or.inl rfl⟩, fun _ _ => ⟨rfl, rfl, rfl⟩⟩
  · split at h
    · simp only [Option.some.injEq] at h
      subst h
      exact ⟨rfl, rfl, ⟨_, Or.inl rfl⟩, fun _ _ => ⟨rfl, rfl, rfl⟩⟩
    · split at h
      · exact absurd h (by simp)
      · split at h
        · simp only [Option.some.injEq] at h
          subst h
          exact ⟨rfl, rfl, ⟨_, Or.inl rfl⟩, fun _ _ => ⟨rfl, rfl, rfl⟩⟩
        · simp only [Option.some.injEq] at h
          subst h
          exact ⟨rfl, rfl, ⟨_, Or.inr rfl⟩, fun _ _ => ⟨rfl, rfl, rfl⟩⟩

theorem afterRead_big (g : Int) (fuel ec n : Nat) :
    Request.afterRead Externals.sample g fuel
        (received (mkRequest "GET".toList "/ HTTP/1.1".toList [] "factorial 2147483648".toList))
        ec n = none := by
  have hbody : "factorial 2147483648".toList = opName "factorial" ++ ' ' :: "2147483648".toList := by
    decide
  have hps : (split ',' "2147483648".toList).map (fun s => Externals.sample.atof (c_str s))
      = [Dbl.ofInt 2147483648] := by decide
  rw [hbody, afterRead_op_rest Externals.sample g fuel _ _ _ _ _ ec n (Or.inl rfl) (by decide)
    (by simp) (by decide) (by decide) (by decide), hps,
    (calculateAnswer_big Externals.sample fuel).1]
  rfl

/-- C13 (the code at the failing input): after a completed read of the request
`GET / HTTP/1.1` with the body `factorial 2147483648`, `afterRead` calls
`calculateAnswer("factorial", [2147483648.0])`, which does not return, so `afterRead`
returns with no fuel: no response is formatted and no write is started. -/
theorem afterRead_no_return (g : Int) (fuel ec n : Nat) :
    Request.afterRead Externals.sample g fuel
        (received (mkRequest "GET".toList "/ HTTP/1.1".toList [] "factorial 2147483648".toList))
        ec n = none ∧
    Externals.sample.atof "2147483648".toList = Dbl.ofInt 2147483648 :=
  ⟨afterRead_big g fuel ec n, by decide⟩

/-! ## The accept loop -/

theorem updateAt_length {α : Type} (f : α → α) (l : List α) (i : Nat) :
    (updateAt f l i).length = l.length := by
  induction l generalizing i with
  | nil => rfl
  | cons x xs ih => cases i <;> simp [updateAt, ih]

theorem updateAt_get {α : Type} (f : α → α) (l : List α) (i : Nat) :
    (updateAt f l i)[i]? = l[i]?.map f := by
  induction l generalizing i with
  | nil => rfl
  | cons x xs ih =>
    cases i with
    | zero => simp [updateAt]
    | succ j => simpa [updateAt] using ih j

theorem updateAt_append_length {α : Type} (f : α → α) (l : List α) (x : α) :
    updateAt f (l ++ [x]) l.length = l ++ [f x] := by
  induction l with
  | nil => rfl
  | cons y ys ih => simp [updateAt, ih]

theorem acceptLoop_from (errors : List Nat) : ∀ done : List Request,
    HttpServer.acceptLoop errors { requests := done ++ [Request.create], pending := [done.length] }
      = some { requests := done
                  ++ errors.map (fun e => if e = 0 then Request.create.answer else Request.create)
                  ++ [Request.create],
               pending := [done.length + errors.length] } := by
  induction errors with
  | nil => intro done; simp [HttpServer.acceptLoop]
  | cons e es ih =>
    intro done
    have hstep : HttpServer.acceptCompletes
        { requests := done ++ [Request.create], pending := [done.length] } e
        = some { requests := (done ++ [if e = 0 then Request.create.answer else Request.create])
                    ++ [Request.create],
                 pending := [(done ++ [if e = 0 then Request.create.answer
                    else Request.create]).length] } := by
      by_cases he : e = 0
      · simp [HttpServer.acceptCompletes, HttpServer.handle_accept, HttpServer.start_accept, he,
          updateAt_append_length]
      · simp [HttpServer.acceptCompletes, HttpServer.handle_accept, HttpServer.start_accept, he]
    rw [HttpServer.acceptLoop, hstep]
    simp only []
    rw [ih]
    simp [Nat.add_assoc, Nat.add_comm 1]

/-- C14: every call of `handle_accept`, whatever its error code, leaves exactly one more
accept pending, on a `Request` that it has just constructed; the read of the accepted
`Request` is started if and only if the error code is `0`, and otherwise the `Request`
is left as it was; so from `thread_main` on, after accepts that complete with any error
codes, one accept is pending again and exactly the `Request`s accepted without error
have a read started. -/
theorem accept_loop :
    (∀ (s : HttpServer) (req error : Nat),
      (s.handle_accept req error).pending = s.pending ++ [s.requests.length] ∧
      (s.handle_accept req error).requests.length = s.requests.length + 1 ∧
      (s.handle_accept req error).requests[s.requests.length]? = some Request.create) ∧
    (∀ (s : HttpServer) (req error : Nat) (r : Request), s.requests[req]? = some r →
      r.socket = true →
      ∃ r1 : Request, (s.handle_accept req error).requests[req]? = some r1 ∧
        (r1.reads = r.reads + 1 ↔ error = 0) ∧ (error ≠ 0 → r1 = r)) ∧
    (∀ errors : List Nat,
      HttpServer.acceptLoop errors HttpServer.thread_main
        = some { requests :=
                   errors.map (fun e => if e = 0 then Request.create.answer else Request.create)
                     ++ [Request.create],
                 pending := [errors.length] }) ∧
    Request.create.answer.reads = 1 ∧ Request.create.reads = 0 := by
  refine ⟨?_, ?_, ?_, rfl, rfl⟩
  · intro s req error
    by_cases he : error = 0
    · simp [HttpServer.handle_accept, HttpServer.start_accept, he, updateAt_length]
    · simp [HttpServer.handle_accept, HttpServer.start_accept, he]
  · intro s req error r hr hsock
    have hlt : req < s.requests.length := by
      rcases Nat.lt_or_ge req s.requests.length with h | h
      · exact h
      · rw [List.getElem?_eq_none h] at hr
        exact absurd hr (by simp)
    by_cases he : error = 0
    · refine ⟨r.answer, ?_, ?_, fun h => absurd he h⟩
      · simp only [HttpServer.handle_accept, HttpServer.start_accept, he, if_true]
        rw [List.getElem?_append_left (by rw [updateAt_length]; exact hlt), updateAt_get, hr]
        rfl
      · simp [Request.answer, hsock, he]
    · refine ⟨r, ?_, ?_, fun _ => rfl⟩
      · simp only [HttpServer.handle_accept, HttpServer.start_accept, he, if_false]
        rw [List.getElem?_append_left hlt, hr]
      · simp [he]
  · intro errors
    have := acceptLoop_from errors []
    simpa [HttpServer.thread_main, HttpServer.start_accept] using this

/-- C14 (witness): the second of two `Request`s is accepted with an error. -/
theorem accept_loop_witness :
    ∃ r1 : Request,
      (HttpServer.handle_accept { requests := [Request.create.answer, Request.create], pending := [] }
        1 5).requests[1]? = some r1 ∧
      (r1.reads = Request.create.reads + 1 ↔ 5 = 0) ∧ (5 ≠ 0 → r1 = Request.create) :=
  accept_loop.2.1 { requests := [Request.create.answer, Request.create], pending := [] } 1 5
    Request.create rfl rfl

/-! ## Interleaved connections -/

theorem setAt_length {α : Type} (x : α) (l : List α) (i : Nat) :
    (setAt x l i).length = l.length := by
  induction l generalizing i with
  | nil => rfl
  | cons y ys ih => cases i <;> simp [setAt, ih]

theorem setAt_get_self {α : Type} (x : α) (l : List α) (i : Nat) (h : i < l.length) :
    (setAt x l i)[i]? = some x := by
  induction l generalizing i with
  | nil => exact absurd h (by simp)
  | cons y ys ih =>
    cases i with
    | zero => simp [setAt]
    | succ j =>
      have hj : j < ys.length := by simpa using h
      simpa [setAt] using ih j hj

theorem setAt_get_other {α : Type} (x : α) (l : List α) (i j : Nat) (h : i ≠ j) :
    (setAt x l i)[j]? = l[j]? := by
  induction l generalizing i j with
  | nil => rfl
  | cons y ys ih =>
    cases i with
    | zero =>
      cases j with
      | zero => exact absurd rfl h
      | succ k => simp [setAt]
    | succ i1 =>
      cases j with
      | zero => simp [setAt]
      | succ k => simpa [setAt] using ih i1 k (fun e => h (by rw [e]))

theorem dispatch_self (env : Externals) (fuel : Nat) (conns conns1 : List Request) (i : Nat)
    (c : Completion) (r : Request) (hr : conns[i]? = some r)
    (h : dispatch env fuel conns i c = some conns1) :
    ∃ r1 : Request, Request.handle env fuel r c = some r1 ∧ conns1[i]? = some r1 := by
  have hlt : i < conns.length := by
    rcases Nat.lt_or_ge i conns.length with h1 | h1
    · exact h1
    · rw [List.getElem?_eq_none h1] at hr
      exact absurd hr (by simp)
  unfold dispatch at h
  rw [hr] at h
  simp only [] at h
  cases hh : Request.handle env fuel r c with
  | none => rw [hh] at h; exact absurd h (by simp)
  | some r1 =>
    rw [hh] at h
    simp only [Option.some.injEq] at h
    subst h
    exact ⟨r1, rfl, setAt_get_self _ _ _ hlt⟩

theorem dispatch_other (env : Externals) (fuel : Nat) (conns conns1 : List Request) (i j : Nat)
    (c : Completion) (hij : i ≠ j) (h : dispatch env fuel conns i c = some conns1) :
    conns1[j]? = conns[j]? := by
  unfold dispatch at h
  cases hr : conns[i]? with
  | none =>
    rw [hr] at h
    simp only [Option.some.injEq] at h
    rw [h]
  | some r =>
    rw [hr] at h
    simp only [] at h
    cases hh : Request.handle env fuel r c with
    | none => rw [hh] at h; exact absurd h (by simp)
    | some r1 =>
      rw [hh] at h
      simp only [Option.some.injEq] at h
      subst h
      exact setAt_get_other _ _ _ _ hij

theorem dispatch_length (env : Externals) (fuel : Nat) (conns conns1 : List Request) (i : Nat)
    (c : Completion) (h : dispatch env fuel conns i c = some conns1) :
    conns1.length = conns.length := by
  unfold dispatch at h
  cases hr : conns[i]? with
  | none =>
    rw [hr] at h
    simp only [Option.some.injEq] at h
    rw [h]
  | some r =>
    rw [hr] at h
    simp only [] at h
    cases hh : Request.handle env fuel r c with
    | none => rw [hh] at h; exact absurd h (by simp)
    | some r1 =>
      rw [hh] at h
      simp only [Option.some.injEq] at h
      subst h
      exact setAt_length _ _ _

/-- Locality of the handlers: after any schedule that runs to its end, every connection
is in the state that its own completions alone produce from its own initial state. -/
theorem runSchedule_local (env : Externals) (fuel : Nat) (schedule : List (Nat × Completion)) :
    ∀ (conns final : List Request), runSchedule env fuel schedule conns = some final →
      final.length = conns.length ∧
      ∀ (i : Nat) (r : Request), conns[i]? = some r →
        ∃ r1 : Request, runAlone env fuel (completionsOf i schedule) r = some r1 ∧
          final[i]? = some r1 := by
  induction schedule with
  | nil =>
    intro conns final h
    simp only [runSchedule, Option.some.injEq] at h
    subst h
    exact ⟨rfl, fun i r hr => ⟨r, rfl, hr⟩⟩
  | cons e rest ih =>
    intro conns final h
    obtain ⟨j, c⟩ := e
    simp only [runSchedule] at h
    cases hd : dispatch env fuel conns j c with
    | none => rw [hd] at h; exact absurd h (by simp)
    | some conns1 =>
      rw [hd] at h
      simp only [] at h
      obtain ⟨hlen, hloc⟩ := ih conns1 final h
      refine ⟨by rw [hlen, dispatch_length env fuel conns conns1 j c hd], ?_⟩
      intro i r hr
      by_cases hji : j = i
      · subst hji
        obtain ⟨r1, hh, hr1⟩ := dispatch_self env fuel conns conns1 j c r hr hd
        obtain ⟨r2, hrun, hfin⟩ := hloc j r1 hr1
        refine ⟨r2, ?_, hfin⟩
        simp only [completionsOf, if_true, runAlone, hh]
        exact hrun
      · have hsame := dispatch_other env fuel conns conns1 j i c hji hd
        obtain ⟨r2, hrun, hfin⟩ := hloc i r (by rw [hsame]; exact hr)
        refine ⟨r2, ?_, hfin⟩
        simp only [completionsOf, if_neg hji]
        exact hrun

/-- Progress of the interleaving: a schedule runs to its end when each connection, run
alone on its own completions, does. -/
theorem runSchedule_progress (env : Externals) (fuel : Nat)
    (schedule : List (Nat × Completion)) :
    ∀ conns : List Request,
      (∀ (i : Nat) (r : Request), conns[i]? = some r →
        ∃ r1 : Request, runAlone env fuel (completionsOf i schedule) r = some r1) →
      ∃ final : List Request, runSchedule env fuel schedule conns = some final := by
  induction schedule with
  | nil => intro conns _; exact ⟨conns, rfl⟩
  | cons e rest ih =>
    intro conns hall
    obtain ⟨j, c⟩ := e
    cases hr : conns[j]? with
    | none =>
      have hd : dispatch env fuel conns j c = some conns := by
        unfold dispatch
        rw [hr]
      simp only [runSchedule, hd]
      apply ih
      intro i r hi
      have hji : j ≠ i := by
        intro e
        subst e
        rw [hr] at hi
        exact absurd hi (by simp)
      obtain ⟨r1, h1⟩ := hall i r hi
      simp only [completionsOf, if_neg hji] at h1
      exact ⟨r1, h1⟩
    | some rj =>
      obtain ⟨r1, h1⟩ := hall j rj hr
      simp only [completionsOf, if_true, runAlone] at h1
      cases hh : Request.handle env fuel rj c with
      | none => rw [hh] at h1; exact absurd h1 (by simp)
      | some rj1 =>
        rw [hh] at h1
        simp only [] at h1
        have hlt : j < conns.length := by
          rcases Nat.lt_or_ge j conns.length with h2 | h2
          · exact h2
          · rw [List.getElem?_eq_none h2] at hr
            exact absurd hr (by simp)
        have hd : dispatch env fuel conns j c = some (setAt rj1 conns j) := by
          unfold dispatch
          rw [hr]
          simp only [hh]
        simp only [runSchedule, hd]
        apply ih
        intro i r hi
        by_cases hji : j = i
        · subst hji
          rw [setAt_get_self _ _ _ hlt] at hi
          simp only [Option.some.injEq] at hi
          subst hi
          exact ⟨r1, h1⟩
        · rw [setAt_get_other _ _ _ _ hji] at hi
          obtain ⟨r2, h2⟩ := hall i r hi
          simp only [completionsOf, if_neg hji] at h2
          exact ⟨r2, h2⟩

/-- C15 (the code at the failing input): connection 0 has sent `factorial 2147483648` and
connection 1 `factorial 5`.  Alone, connection 1 gets the response `200 OK` with the body
`120` and is closed once.  When the read of connection 0 completes first, its handler
does not return (the loop of `factorial`, as in C12 and C13), the one thread never takes
the next turn, and the schedule does not run to its end with any fuel: connection 1
gets no response. -/
theorem schedule_no_return (fuel : Nat) (g0 g1 : Int) :
    runSchedule Externals.sample fuel
        [(0, Completion.readDone 0 0 g0), (1, Completion.readDone 0 0 g1),
          (1, Completion.writeDone 0 0), (0, Completion.writeDone 0 0)]
        [received (mkRequest "GET".toList "/ HTTP/1.1".toList [] "factorial 2147483648".toList),
          received (mkRequest "GET".toList "/ HTTP/1.1".toList [] "factorial 5".toList)]
      = none ∧
    (runAlone Externals.sample 6 [Completion.readDone 0 0 0, Completion.writeDone 0 0]
        (received (mkRequest "GET".toList "/ HTTP/1.1".toList [] "factorial 5".toList))).map
        (fun r => (r.response, r.writes, r.closes))
      = some (answerText "120".toList, 1, 1) := by
  refine ⟨?_, by decide⟩
  have hd : dispatch Externals.sample fuel
      [received (mkRequest "GET".toList "/ HTTP/1.1".toList [] "factorial 2147483648".toList),
        received (mkRequest "GET".toList "/ HTTP/1.1".toList [] "factorial 5".toList)]
      0 (Completion.readDone 0 0 g0) = none := by
    simp only [dispatch, List.getElem?_cons_zero, Request.handle, afterRead_big g0 fuel 0 0]
  simp only [runSchedule, hd]

/-! ## The comma split -/

theorem split_cons (sep c : Char) (cs : List Char) :
    ∃ (h : List Char) (tl : List (List Char)), split sep cs = h :: tl ∧
      split sep (c :: cs) = if c = sep then [] :: h :: tl else (c :: h) :: tl := by
  cases hs : split sep cs with
  | nil => exact absurd hs (split_ne_nil sep cs)
  | cons h tl =>
    refine ⟨h, tl, rfl, ?_⟩
    by_cases hc : c = sep
    · simp [split, hc, hs]
    · simp [split, hc, hs]

theorem split_length (sep : Char) (s : List Char) :
    (split sep s).length = s.count sep + 1 := by
  induction s with
  | nil => rfl
  | cons c cs ih =>
    obtain ⟨h, tl, hs, hc⟩ := split_cons sep c cs
    rw [hs] at ih
    rw [hc]
    by_cases he : c = sep
    · subst he
      simp only [if_true, List.length_cons, List.count_cons_self] at ih ⊢
      omega
    · have hne : (c == sep) = false := by simpa using he
      simp only [if_neg he, List.length_cons, List.count_cons, hne] at ih ⊢
      simpa using ih

theorem split_intercalate (sep : Char) (s : List Char) :
    List.intercalate [sep] (split sep s) = s := by
  induction s with
  | nil => rfl
  | cons c cs ih =>
    obtain ⟨h, tl, hs, hc⟩ := split_cons sep c cs
    rw [hs] at ih
    rw [hc]
    by_cases he : c = sep
    · subst he
      simp only [if_true]
      simp only [List.intercalate, List.intersperse, List.flatten, List.nil_append,
        List.singleton_append] at ih ⊢
      rw [ih]
    · simp only [if_neg he]
      cases tl with
      | nil =>
        simp only [List.intercalate, List.intersperse, List.flatten, List.append_nil] at ih ⊢
        rw [ih]
      | cons h2 tl2 =>
        simp only [List.intercalate, List.intersperse, List.flatten, List.cons_append] at ih ⊢
        rw [ih]

theorem split_no_sep (sep : Char) (s : List Char) : ∀ tok ∈ split sep s, sep ∉ tok := by
  induction s with
  | nil => simp [split]
  | cons c cs ih =>
    obtain ⟨h, tl, hs, hc⟩ := split_cons sep c cs
    rw [hs] at ih
    rw [hc]
    intro tok htok
    by_cases he : c = sep
    · simp only [he, if_true, List.mem_cons] at htok
      rcases htok with rfl | htok
      · simp
      · exact ih tok (List.mem_cons.mpr htok)
    · simp only [if_neg he, List.mem_cons] at htok
      rcases htok with rfl | htok
      · intro hmem
        rcases List.mem_cons.mp hmem with e | hmem
        · exact he e.symm
        · exact ih h (List.mem_cons_self _ _) hmem
      · exact ih tok (List.mem_cons_of_mem _ htok)

/-- C16: for a `GET` or `POST` request whose body is `op`, a space and `rest`, with `op`
not empty and without a space, `afterRead` calls `calculateAnswer` once, with the
operation name `op` and the list of the pieces of `rest` between its commas, in their
order (one more than `rest` has commas; joined by commas they give `rest` back), each
piece converted by `atof` on its own; and `afterRead` returns exactly when that call does. -/
theorem afterRead_parse (env : Externals) (g : Int) (fuel : Nat) (m t : List Char)
    (hs : List (List Char)) (op rest : List Char) (ec n : Nat)
    (hm : m = "GET".toList ∨ m = "POST".toList) (ht : '\n' ∉ t)
    (hok : ∀ h ∈ hs, headerOk h) (hop : op ≠ []) (hsp : ' ' ∉ op)
    (hlen : (op ++ ' ' :: rest).length < 2 ^ 64) :
    (split ',' rest).length = rest.count ',' + 1 ∧
    List.intercalate [','] (split ',' rest) = rest ∧
    (∀ tok ∈ split ',' rest, ',' ∉ tok) ∧
    (Request.afterRead env g fuel (received (mkRequest m t hs (op ++ ' ' :: rest))) ec n).isSome
      = (calculateAnswer env fuel op
          ((split ',' rest).map (fun tok => env.atof (c_str tok)))).isSome ∧
    (∀ r1 : Request,
      Request.afterRead env g fuel (received (mkRequest m t hs (op ++ ' ' :: rest))) ec n = some r1 →
      r1.evaluated = [(op, (split ',' rest).map (fun tok => env.atof (c_str tok)))]) := by
  refine ⟨split_length _ _, split_intercalate _ _, split_no_sep _ _, ?_, ?_⟩
  · rw [afterRead_op_rest env g fuel m t hs op rest ec n hm ht hok hop hsp hlen]
    cases calculateAnswer env fuel op ((split ',' rest).map (fun s => env.atof (c_str s))) <;> rfl
  · intro r1 h
    rw [afterRead_op_rest env g fuel m t hs op rest ec n hm ht hok hop hsp hlen] at h
    cases hc : calculateAnswer env fuel op
        ((split ',' rest).map (fun s => env.atof (c_str s))) with
    | none => rw [hc] at h; exact absurd h (by simp)
    | some res =>
      rw [hc] at h
      simp only [Option.map_some', Option.some.injEq] at h
      subst h
      by_cases hf : res = EvalResult.failure
      · simp [hf, Request.writeError, received]
      · simp [hf, Request.writeAnswer, received]

/-- C16 (witness): the body `abs 5,87,2` is parsed into `abs` and the three parameters. -/
theorem afterRead_parse_witness :
    (split ',' "5,87,2".toList).length = "5,87,2".toList.count ',' + 1 ∧
    List.intercalate [','] (split ',' "5,87,2".toList) = "5,87,2".toList ∧
    (∀ tok ∈ split ',' "5,87,2".toList, ',' ∉ tok) ∧
    (Request.afterRead Externals.sample 0 0
        (received (mkRequest "GET".toList "/ HTTP/1.1".toList ["Host: a".toList]
          ("abs".toList ++ ' ' :: "5,87,2".toList))) 0 0).isSome
      = (calculateAnswer Externals.sample 0 "abs".toList
          ((split ',' "5,87,2".toList).map (fun tok => Externals.sample.atof (c_str tok)))).isSome ∧
    (∀ r1 : Request,
      Request.afterRead Externals.sample 0 0
        (received (mkRequest "GET".toList "/ HTTP/1.1".toList ["Host: a".toList]
          ("abs".toList ++ ' ' :: "5,87,2".toList))) 0 0 = some r1 →
      r1.evaluated = [("abs".toList,
        (split ',' "5,87,2".toList).map (fun tok => Externals.sample.atof (c_str tok)))]) :=
  afterRead_parse Externals.sample 0 0 "GET".toList "/ HTTP/1.1".toList ["Host: a".toList]
    "abs".toList "5,87,2".toList 0 0 (Or.inl rfl) (by decide) (by unfold headerOk; decide)
    (by decide) (by decide) (by decide)

/-! ## Headers and method -/

theorem answerAfter_assigned (g1 g2 : Int) (res : EvalResult) (h : res ≠ EvalResult.uninit) :
    Request.answerAfter g1 res = Request.answerAfter g2 res := by
  cases res with
  | failure => rfl
  | success a => rfl
  | uninit => exact absurd rfl h

/-- C17 (amended): two requests with the same body, in each of which the method `GET` or
`POST` is followed by a space, whatever follows that space in the first line and
whatever the header lines: the same call of `calculateAnswer` is made for both, and
unless that call returns after reading the unassigned `n3` the two calls of `afterRead`
end in the same state with the same response (or neither returns). -/
theorem afterRead_same_body (env : Externals) (g1 g2 : Int) (fuel : Nat)
    (m1 t1 m2 t2 : List Char) (hs1 hs2 : List (List Char)) (body : List Char)
    (ec1 n1 ec2 n2 : Nat)
    (hm1 : m1 = "GET".toList ∨ m1 = "POST".toList) (hm2 : m2 = "GET".toList ∨ m2 = "POST".toList)
    (ht1 : '\n' ∉ t1) (ht2 : '\n' ∉ t2)
    (hok1 : ∀ h ∈ hs1, headerOk h) (hok2 : ∀ h ∈ hs2, headerOk h) :
    (Request.afterRead env g1 fuel (received (mkRequest m1 t1 hs1 body)) ec1 n1).map
          (fun r1 => r1.evaluated)
        = (Request.afterRead env g2 fuel (received (mkRequest m2 t2 hs2 body)) ec2 n2).map
          (fun r1 => r1.evaluated) ∧
    (calculateAnswer env fuel (substr body 0 (find_first_of body ' '))
          ((split ',' (substr body ((find_first_of body ' ' + 1) % 2 ^ 64) npos)).map
            (fun sParam => env.atof (c_str sParam))) ≠ some EvalResult.uninit →
      Request.afterRead env g1 fuel (received (mkRequest m1 t1 hs1 body)) ec1 n1
          = Request.afterRead env g2 fuel (received (mkRequest m2 t2 hs2 body)) ec2 n2 ∧
        (Request.afterRead env g1 fuel (received (mkRequest m1 t1 hs1 body)) ec1 n1).map
            (fun r1 => r1.response)
          = (Request.afterRead env g2 fuel (received (mkRequest m2 t2 hs2 body)) ec2 n2).map
            (fun r1 => r1.response)) := by
  rw [afterRead_mkRequest env g1 fuel m1 t1 hs1 body ec1 n1 hm1 ht1 hok1,
    afterRead_mkRequest env g2 fuel m2 t2 hs2 body ec2 n2 hm2 ht2 hok2]
  have hg0 : getline ("GET \r\n\r\n".toList ++ body) = ("GET \r".toList, "\r\n".toList ++ body) := by
    simp [getline, String.toList]
  have hl0 : headerLoop ("\r\n".toList ++ body).length ("\r\n".toList ++ body) = body := by
    have := headerLoop_headers body [] (by simp) ("\r\n".toList ++ body).length
      (by simp [String.toList])
    simpa using this
  have hB : ¬ ((split ' ' "GET \r".toList).headD [] ≠ "GET".toList ∧
      (split ' ' "GET \r".toList).headD [] ≠ "POST".toList) := by decide
  unfold Request.afterRead
  simp only [received, hg0, if_neg hB, hl0]
  by_cases hC : split ',' (substr body ((find_first_of body ' ' + 1) % 2 ^ 64) npos) = [] ∨
      substr body 0 (find_first_of body ' ') = []
  · simp only [if_pos hC]
    simp
  · simp only [if_neg hC]
    cases hres : calculateAnswer env fuel (substr body 0 (find_first_of body ' '))
        ((split ',' (substr body ((find_first_of body ' ' + 1) % 2 ^ 64) npos)).map
          (fun sParam => env.atof (c_str sParam))) with
    | none => simp
    | some res =>
      simp only []
      refine ⟨?_, ?_⟩
      · by_cases hf : res = EvalResult.failure
        · simp [hf, Request.writeError]
        · simp [hf, Request.writeAnswer]
      · intro hne
        have hr : res ≠ EvalResult.uninit := fun e => hne (by rw [e])
        rw [answerAfter_assigned g1 g2 res hr]
        exact ⟨rfl, rfl⟩

/-- C17 (witness): a `GET` without headers and a `POST` with two headers, both with the
body `factorial 5`, handled with different unassigned values. -/
theorem afterRead_same_body_witness :
    Request.afterRead Externals.sample 0 6
        (received (mkRequest "GET".toList "/ HTTP/1.1".toList [] "factorial 5".toList)) 0 0
        = Request.afterRead Externals.sample 7 6
          (received (mkRequest "POST".toList "/calc?x=1 HTTP/1.0".toList
            ["Host: localhost:8080".toList, "Content-Length: 11".toList] "factorial 5".toList))
          0 33 ∧
      (Request.afterRead Externals.sample 0 6
          (received (mkRequest "GET".toList "/ HTTP/1.1".toList [] "factorial 5".toList)) 0 0).map
          (fun r1 => r1.response)
        = (Request.afterRead Externals.sample 7 6
          (received (mkRequest "POST".toList "/calc?x=1 HTTP/1.0".toList
            ["Host: localhost:8080".toList, "Content-Length: 11".toList] "factorial 5".toList))
          0 33).map (fun r1 => r1.response) :=
  (afterRead_same_body Externals.sample 0 7 6 "GET".toList "/ HTTP/1.1".toList "POST".toList
    "/calc?x=1 HTTP/1.0".toList [] ["Host: localhost:8080".toList, "Content-Length: 11".toList]
    "factorial 5".toList 0 0 0 33 (Or.inl rfl) (Or.inr rfl) (by decide) (by decide) (by simp)
    (by unfold headerOk; decide)).2 (by decide)

/-- C17 (counterexample): `GET\r\n\r\nfactorial 5` and `GET / HTTP/1.1\r\n\r\nfactorial 5`
have the same method token `GET` and the same body `factorial 5`, and differ only in
the rest of the first line; the first gets the 400 wrong-request-type response, the
second `200 OK` with the body `120`. -/
theorem afterRead_first_line_matters :
    firstToken (firstLine "GET\r\n\r\nfactorial 5".toList) = "GET".toList ∧
    firstToken (firstLine "GET / HTTP/1.1\r\n\r\nfactorial 5".toList) = "GET".toList ∧
    afterBlankLine "GET\r\n\r\nfactorial 5".toList = some "factorial 5".toList ∧
    afterBlankLine "GET / HTTP/1.1\r\n\r\nfactorial 5".toList = some "factorial 5".toList ∧
    (Request.afterRead Externals.sample 0 6 (received "GET\r\n\r\nfactorial 5".toList) 0 0).map
        (fun r1 => r1.response) = some (errorText Request.wrongTypeMsg) ∧
    (Request.afterRead Externals.sample 0 6
        (received "GET / HTTP/1.1\r\n\r\nfactorial 5".toList) 0 0).map
        (fun r1 => r1.response) = some (answerText "120".toList) ∧
    errorText Request.wrongTypeMsg ≠ answerText "120".toList := by
  decide

/-! ## The argument check, as the code makes it -/

theorem calculateAnswer_fibonacci_of_loop (env : Externals) (p : Dbl) (f fuel : Nat)
    (n3 : Option Int) (hlt : Dbl.lt p (Dbl.ofInt 3) = false)
    (hloop : fibonacciLoop p f 2 0 1 none = some n3) (hf : f ≤ fuel) :
    calculateAnswer env fuel (opName "fibonacci") [p]
      = some (match n3 with
          | none => EvalResult.uninit
          | some v => EvalResult.success (Dbl.ofInt v)) := by
  have hl := fibonacciLoop_fuel p f (fuel - f) _ _ _ _ _ hloop
  have he : f + (fuel - f) = fuel := by omega
  rw [he] at hl
  have hne : opName "fibonacci" ≠ opName "factorial" := by decide
  cases n3 <;> simp [calculateAnswer, hne, hlt, hl]

theorem fibonacciLoop_assigned (p : Dbl) (f : Nat) : ∀ (i n1 n2 x : Int) (r : Option Int),
    fibonacciLoop p f i n1 n2 (some x) = some r → r ≠ none := by
  induction f with
  | zero => intro i n1 n2 x r h; simp [fibonacciLoop] at h
  | succ f ih =>
    intro i n1 n2 x r h
    simp only [fibonacciLoop] at h
    split at h
    · exact ih _ _ _ _ _ h
    · simp only [Option.some.injEq] at h
      rw [← h]
      simp

theorem early_return_not_taken (p : Dbl) (h : Dbl.lt p (Dbl.ofInt 3) = false) :
    p = Dbl.nan ∨ Dbl.lt (Dbl.ofInt 2) p = true := by
  have h3 : Dbl.ofInt 3 = Dbl.fin false 6755399441055744 (-51) := by decide
  have h2 : Dbl.ofInt 2 = Dbl.fin false 4503599627370496 (-51) := by decide
  cases p with
  | nan => exact Or.inl rfl
  | inf s =>
    cases s with
    | true => rw [h3] at h; simp [Dbl.lt] at h
    | false => right; rw [h2]; simp [Dbl.lt]
  | fin s m e =>
    right
    rw [h3] at h
    rw [h2]
    simp only [Dbl.lt, decide_eq_false_iff_not, decide_eq_true_eq, Dbl.key_lt_iff, not_lt] at h ⊢
    have hv : Dbl.val false 4503599627370496 (-51) < Dbl.val false 6755399441055744 (-51) := by
      simp only [Dbl.val]
      norm_num
    exact lt_of_lt_of_le hv h

/-- Every parameter that is a number and does not take the early return of `fibonacci`
runs the loop body at least once, and the result is then an assigned `n3`. -/
theorem fibonacci_assigned (env : Externals) (p : Dbl) (hp : p ≠ Dbl.nan)
    (h : Dbl.lt p (Dbl.ofInt 3) = false) (fuel : Nat) :
    fibonacciSums p (fuel + 1) 2 0 1 ≠ [] ∧
    ∀ res : EvalResult, calculateAnswer env fuel (opName "fibonacci") [p] = some res →
      ∃ a : Dbl, res = EvalResult.success a := by
  have hlt : Dbl.lt (Dbl.ofInt 2) p = true := by
    rcases early_return_not_taken p h with h1 | h1
    · exact absurd h1 hp
    · exact h1
  refine ⟨by simp [fibonacciSums, hlt], ?_⟩
  intro res hres
  have hne : opName "fibonacci" ≠ opName "factorial" := by decide
  cases fuel with
  | zero => simp [calculateAnswer, hne, h, fibonacciLoop] at hres
  | succ f =>
    simp only [calculateAnswer, hne, h, fibonacciLoop, hlt, List.length_singleton, and_true,
      if_true, List.getD_cons_zero, false_and, if_false, Bool.false_eq_true] at hres
    cases hl : fibonacciLoop p f (wrap32 (2 + 1)) 1 (wrap32 (0 + 1)) (some (wrap32 (0 + 1))) with
    | none => rw [hl] at hres; simp at hres
    | some r =>
      cases r with
      | none => exact absurd rfl (fibonacciLoop_assigned p f _ _ _ _ _ hl)
      | some v =>
        rw [hl] at hres
        simp only [Option.some.injEq] at hres
        exact ⟨_, hres.symm⟩

/-- C19 (the code at the failing input): for the parameter not-a-number the early return
of `fibonacci` is not taken (`NaN < 3` is false), the loop body is never run (`2 < NaN`
is false, no sum is computed), and `calculateAnswer` returns true after `answer_ = n3`
has read the `n3` that no statement has assigned. -/
theorem fibonacci_nan (env : Externals) (fuel : Nat) :
    Dbl.lt Dbl.nan (Dbl.ofInt 3) = false ∧
    fibonacciSums Dbl.nan (fuel + 1) 2 0 1 = [] ∧
    calculateAnswer env (fuel + 1) (opName "fibonacci") [Dbl.nan] = some EvalResult.uninit := by
  refine ⟨rfl, rfl, ?_⟩
  exact calculateAnswer_fibonacci_of_loop env Dbl.nan 1 (fuel + 1) none rfl rfl (by omega)

/-! ## The range of `int` in `fibonacci` -/

theorem fibonacciSums_small : ∀ n : Fin 48, 3 ≤ (n : Nat) →
    fibonacciSums (Dbl.ofInt ((n : Nat) : Int)) ((n : Nat) - 1) 2 0 1
        = (List.range ((n : Nat) - 2)).map (fun k => ((Nat.fib (k + 2) : Nat) : Int)) ∧
      ∀ s ∈ fibonacciSums (Dbl.ofInt ((n : Nat) : Int)) ((n : Nat) - 1) 2 0 1,
        -2 ^ 31 ≤ s ∧ s ≤ 2 ^ 31 - 1 := by
  decide

theorem fibonacciLoop_48 :
    Dbl.lt (Dbl.ofInt 48) (Dbl.ofInt 3) = false ∧
    fibonacciLoop (Dbl.ofInt 48) 47 2 0 1 none = some (some (-1323752223)) ∧
    (2971215073 : Int) ∈ fibonacciSums (Dbl.ofInt 48) 47 2 0 1 := by
  decide

/-- C20: for every integer `3 <= n <= 47` the sums that the loop of `fibonacci` computes
are `F(2), ..., F(n-1)`, each within the range of a 32-bit `int`, and the result is
exactly `F(n-1)` (`F(46) = 1836311903` for `n = 47`); for `n = 48` the loop computes the
sum `F(47) = 2971215073`, which is above `2^31 - 1`, and with 32-bit wrap-around the
result is `-1323752223`, not `F(47)`. -/
theorem fibonacci_int_range (env : Externals) :
    (∀ n : Nat, 3 ≤ n → n ≤ 47 →
      fibonacciSums (Dbl.ofInt (n : Nat)) (n - 1) 2 0 1
          = (List.range (n - 2)).map (fun k => ((Nat.fib (k + 2) : Nat) : Int)) ∧
        (∀ s ∈ fibonacciSums (Dbl.ofInt (n : Nat)) (n - 1) 2 0 1,
          -2 ^ 31 ≤ s ∧ s ≤ 2 ^ 31 - 1) ∧
        ∀ fuel : Nat, n ≤ fuel + 1 →
          calculateAnswer env fuel (opName "fibonacci") [Dbl.ofInt (n : Nat)]
              = some (EvalResult.success (Dbl.ofInt (Nat.fib (n - 1) : Nat))) ∧
            (Dbl.ofInt (Nat.fib (n - 1) : Nat)).toInt = some ((Nat.fib (n - 1) : Nat) : Int)) ∧
    Nat.fib 46 = 1836311903 ∧ Nat.fib 47 = 2971215073 ∧
    (2971215073 : Int) ∈ fibonacciSums (Dbl.ofInt 48) 47 2 0 1 ∧
    (2 ^ 31 - 1 : Int) < 2971215073 ∧
    (∀ fuel : Nat, 48 ≤ fuel + 1 →
      calculateAnswer env fuel (opName "fibonacci") [Dbl.ofInt 48]
        = some (EvalResult.success (Dbl.ofInt (-1323752223)))) ∧
    (Dbl.ofInt (-1323752223)).toInt = some (-1323752223) ∧
    (Dbl.ofInt (-1323752223)).toInt ≠ some ((Nat.fib 47 : Nat) : Int) := by
  refine ⟨?_, by decide, by decide, fibonacciLoop_48.2.2, by decide, ?_, by decide, by decide⟩
  · intro n h3 h47
    obtain ⟨hsum, hrange⟩ := fibonacciSums_small ⟨n, by omega⟩ h3
    obtain ⟨hlt, hloop, hint⟩ := fibonacciLoop_small ⟨n, by omega⟩ h3
    simp only [] at hsum hrange hlt hloop hint
    refine ⟨hsum, hrange, fun fuel hfuel => ⟨?_, hint⟩⟩
    exact calculateAnswer_fibonacci_of_loop env _ (n - 1) fuel _ hlt hloop (by omega)
  · intro fuel hfuel
    exact calculateAnswer_fibonacci_of_loop env _ 47 fuel _ fibonacciLoop_48.1
      fibonacciLoop_48.2.1 (by omega)

/-- C20 (witness): `n = 47`, the last integer whose sums all fit. -/
theorem fibonacci_int_range_witness :
    fibonacciSums (Dbl.ofInt 47) 46 2 0 1
        = (List.range 45).map (fun k => ((Nat.fib (k + 2) : Nat) : Int)) ∧
      (∀ s ∈ fibonacciSums (Dbl.ofInt 47) 46 2 0 1, -2 ^ 31 ≤ s ∧ s ≤ 2 ^ 31 - 1) ∧
      ∀ fuel : Nat, 47 ≤ fuel + 1 →
        calculateAnswer Externals.sample fuel (opName "fibonacci") [Dbl.ofInt 47]
            = some (EvalResult.success (Dbl.ofInt (Nat.fib 46 : Nat))) ∧
          (Dbl.ofInt (Nat.fib 46 : Nat)).toInt = some ((Nat.fib 46 : Nat) : Int) :=
  (fibonacci_int_range Externals.sample).1 47 (by decide) (by decide)
